import Mathlib

/-!
# A verification development for the `_lookup` configuration subsystem

This file is a shallow embedding, in Lean 4, of the hierarchical configuration
resolver found under `src/lib/_lookup/` (config arrays, the config-array
factory, extraction/merging, and the glob planning of the file enumerator),
together with theorems settling the behavioural claims about it.

Modelling conventions:

* JavaScript objects and arrays are modelled by the mutual inductive
  `JsVal`/`JsFields`: an ordered association list of string keys.  Arrays are
  containers tagged with `isArr := true`; `Object.keys` enumerates fields in
  insertion order, and `target[key] = v` either replaces the value in place or
  appends a new key, which is exactly what `jsSet` does.  An absent key plays
  the role of the JavaScript value `undefined`; the model does not represent
  properties explicitly set to `undefined` (configuration data read from
  JSON/YAML cannot contain them).
* Fallible code is modelled with `Except JsError`; a `throw` statement becomes
  an `Except.error`.
* External modules (`minimatch`, the module resolver, `require`, the
  filesystem) are parameters gathered in the `Env` structure.
* Filesystem paths used by the ancestor walk are lists of path components
  (`[] ≃ "/"`), so `path.dirname` is `List.dropLast`.
-/

set_option autoImplicit false

namespace ESLint

/-! ## JavaScript values -/

/-- A primitive JavaScript value (as far as configuration data needs them). -/
inductive JsPrim where
  | null
  | bool (b : Bool)
  | num (n : Int)
  | str (s : String)
deriving DecidableEq, Repr

mutual
/-- A JavaScript value: a primitive, or an object/array container.
Arrays are containers with `isArr := true`, their fields keyed by the
decimal index strings, in order. -/
inductive JsVal where
  | prim (p : JsPrim)
  | container (isArr : Bool) (fields : JsFields)
deriving Repr

/-- The ordered fields of a JavaScript object (insertion order). -/
inductive JsFields where
  | nil
  | cons (key : String) (value : JsVal) (rest : JsFields)
deriving Repr
end

mutual
def JsVal.beq : JsVal → JsVal → Bool
  | .prim p, .prim q => p == q
  | .container a f, .container b g => a == b && JsFields.beq f g
  | _, _ => false

def JsFields.beq : JsFields → JsFields → Bool
  | .nil, .nil => true
  | .cons k v r, .cons k' v' r' => k == k' && JsVal.beq v v' && JsFields.beq r r'
  | _, _ => false
end

mutual
theorem JsVal.beq_iff : ∀ a b : JsVal, JsVal.beq a b = true ↔ a = b
  | .prim _, .prim _ => by simp [JsVal.beq]
  | .prim _, .container _ _ => by simp [JsVal.beq]
  | .container _ _, .prim _ => by simp [JsVal.beq]
  | .container _ f, .container _ g => by
      simp [JsVal.beq, JsFields.beqFields_iff f g]

theorem JsFields.beqFields_iff : ∀ a b : JsFields, JsFields.beq a b = true ↔ a = b
  | .nil, .nil => by simp [JsFields.beq]
  | .nil, .cons _ _ _ => by simp [JsFields.beq]
  | .cons _ _ _, .nil => by simp [JsFields.beq]
  | .cons _ v r, .cons _ v' r' => by
      simp [JsFields.beq, JsVal.beq_iff v v', JsFields.beqFields_iff r r', and_assoc]
end

instance : DecidableEq JsVal := fun a b => decidable_of_iff _ (JsVal.beq_iff a b)

instance : DecidableEq JsFields := fun a b => decidable_of_iff _ (JsFields.beqFields_iff a b)

/-- Property read, `fields[key]`; `none` is JavaScript's `undefined`. -/
def jsGet : JsFields → String → Option JsVal
  | .nil, _ => none
  | .cons k v rest, key => if k = key then some v else jsGet rest key

/-- Property write, `fields[key] = v`: replace in place if the key exists,
append otherwise (JavaScript objects keep insertion order). -/
def jsSet : JsFields → String → JsVal → JsFields
  | .nil, key, v => .cons key v .nil
  | .cons k w rest, key, v =>
    if k = key then .cons k v rest else .cons k w (jsSet rest key v)

/-- `isNonNullObject` of `config-array-extract`: `typeof x === "object" && x !== null`. -/
def JsVal.isNonNullObject : JsVal → Bool
  | .container _ _ => true
  | .prim _ => false

/-- Concatenation of field lists. -/
def jsAppend : JsFields → JsFields → JsFields
  | .nil, g => g
  | .cons k v rest, g => .cons k v (jsAppend rest g)

mutual
/-- Well-formedness of a value as a real JavaScript object graph: at every
level the keys are pairwise distinct (JavaScript objects cannot carry the
same key twice; the association-list model can, so theorems that need it
assume this predicate). -/
def JsVal.wfB : JsVal → Bool
  | .prim _ => true
  | .container _ fs => fs.wfB

def JsFields.wfB : JsFields → Bool
  | .nil => true
  | .cons k v rest => v.wfB && rest.wfB && (jsGet rest k).isNone
end

/-! ## `assignWithoutOverwrite` (config-array-extract.js)

```js
function assignWithoutOverwrite(target, source) {
    if (!isNonNullObject(source)) return;
    for (const key of Object.keys(source)) {
        if (isNonNullObject(target[key])) {
            assignWithoutOverwrite(target[key], source[key]);
        } else if (target[key] === void 0) {
            if (isNonNullObject(source[key])) {
                target[key] = Array.isArray(source[key]) ? [] : {};
                assignWithoutOverwrite(target[key], source[key]);
            } else if (source[key] !== void 0) {
                target[key] = source[key];
            }
        }
    }
}
```

The recursive call on `(target[key], source[key])` when `target[key]` is a
non-null object and `source[key]` is a primitive is a no-op (the callee
returns immediately because `isNonNullObject(source)` fails), so `awoKey`
returns the target unchanged in that case instead of rebuilding it. -/

mutual
/-- `assignWithoutOverwrite(target, source)`, returning the updated target. -/
def awo (target : JsVal) (source : JsVal) : JsVal :=
  match source with
  | .prim _ => target
  | .container _ sf => awoFields target sf

/-- The `for (const key of Object.keys(source))` loop. -/
def awoFields (target : JsVal) (sf : JsFields) : JsVal :=
  match sf with
  | .nil => target
  | .cons k sv rest => awoFields (awoKey target k sv) rest

/-- One iteration of the loop body, for `key = k`, `source[key] = sv`. -/
def awoKey (target : JsVal) (k : String) (sv : JsVal) : JsVal :=
  match target with
  | .prim _ => target
  | .container tb tf =>
    match jsGet tf k with
    | some tv =>
      if tv.isNonNullObject then
        match sv with
        | .prim _ => target
        | .container _ sf => JsVal.container tb (jsSet tf k (awoFields tv sf))
      else target
    | none =>
      match sv with
      | .container sb sf =>
          JsVal.container tb (jsSet tf k (awoFields (.container sb .nil) sf))
      | .prim _ => JsVal.container tb (jsSet tf k sv)
end

/-! ## Generic association lists

The `plugins` and `rules` members of an extracted config are plain objects
whose values are references resp. rule arrays; they are modelled as
association lists with the same get/set semantics as `JsFields`. -/

def alistGet {α : Type} : List (String × α) → String → Option α
  | [], _ => none
  | (k, v) :: rest, key => if k = key then some v else alistGet rest key

def alistSet {α : Type} : List (String × α) → String → α → List (String × α)
  | [], key, v => [(key, v)]
  | (k, w) :: rest, key, v =>
    if k = key then (k, v) :: rest else (k, w) :: alistSet rest key v

/-- Pairwise-distinct keys (what `Object.keys` of a real object satisfies). -/
def keysNodup {α : Type} : List (String × α) → Bool
  | [] => true
  | (k, _) :: rest => (alistGet rest k).isNone && keysNodup rest

/-! ## String primitives

The JavaScript string operations used by the subsystem (`slice`,
`startsWith`, `indexOf`, splitting on a separator, …), implemented by
structural recursion over the character list of the string so that every
concrete theorem can be checked by evaluation. -/

/-- `b` is a prefix of `a` (JavaScript `a.startsWith(b)`). -/
def startsWithS (a b : String) : Bool :=
  b.data.isPrefixOf a.data

/-- `b` is a suffix of `a` (JavaScript `a.endsWith(b)`). -/
def endsWithS (a b : String) : Bool :=
  b.data.isSuffixOf a.data

/-- Drop the first `n` characters (JavaScript `s.slice(n)`). -/
def dropS (s : String) (n : Nat) : String :=
  ⟨s.data.drop n⟩

/-- Some character of the string satisfies `p`. -/
def anyS (s : String) (p : Char → Bool) : Bool :=
  s.data.any p

/-- Split a character list at every occurrence of `c` (always nonempty). -/
def splitChar (c : Char) : List Char → List (List Char)
  | [] => [[]]
  | x :: rest =>
    match splitChar c rest with
    | [] => [[x]]
    | g :: gs => if x = c then [] :: g :: gs else (x :: g) :: gs

/-- Join character lists with the separator `c`. -/
def intercalateChar (c : Char) : List (List Char) → List Char
  | [] => []
  | [x] => x
  | x :: xs => x ++ c :: intercalateChar c xs

/-- Split at the *first* occurrence of `c`: the part before and the part
after (JavaScript `indexOf` plus two `slice`s); `none` when `c` does not
occur. -/
def splitFirstChar (c : Char) : List Char → Option (List Char × List Char)
  | [] => none
  | x :: rest =>
    if x = c then some ([], rest)
    else (splitFirstChar c rest).map (fun pq => (x :: pq.1, pq.2))

/-- The character list contains `**` as a subsequence of two adjacent
characters. -/
def hasDoubleStar : List Char → Bool
  | '*' :: '*' :: _ => true
  | _ :: rest => hasDoubleStar rest
  | [] => false

/-! ## Errors and references -/

/-- The behavioural error kinds thrown (or stored) by the subsystem. -/
inductive JsError where
  /-- A JavaScript `TypeError` (calling or dereferencing `undefined`);
  the string names the culprit expression. -/
  | typeError (culprit : String)
  /-- `Failed to load plugin <longName>` (`messageTemplate: "plugin-missing"`). -/
  | pluginMissing (longName : String)
  /-- `Whitespace found in plugin name '<name>'`. -/
  | whitespaceFound (longName : String)
  /-- `Duplicated loading a plugin: <id>` with the two importer paths. -/
  | duplicatedPlugin (id importerA importerB : String)
  /-- `Processor '<id>' not found.` -/
  | processorNotFound (id : String)
  /-- `Invalid processor name: '<id>'` -/
  | invalidProcessorName (id : String)
  /-- `Failed to load config "<name>" to extend from.` -/
  | extendConfigMissing (name : String)
  /-- `Config data not found: <name>` -/
  | configDataNotFound (name : String)
  /-- `Cannot read config file: <path>` -/
  | cannotReadConfig (path : String)
  /-- Schema violation reported by `validateConfigSchema`. -/
  | invalidConfig (path : String)
  /-- A module could not be resolved (`ModuleResolver.resolve` threw). -/
  | moduleNotFound (name : String)
  /-- `ENOENT` from the filesystem. -/
  | enoent (path : String)
  /-- `EACCES`/`EPERM` from the filesystem. -/
  | permission (path : String)
  /-- Model artefact: recursion fuel exhausted (JavaScript would be in an
  unbounded `extends` recursion, i.e. a stack overflow). -/
  | stackOverflow
deriving DecidableEq, Repr

/-- A resolved parser or plugin reference.  Loaded references are
`{ definition, filePath, id, importerPath }`; failed ones are
`{ error, id, importerPath }` (note: no `definition`, no `filePath`).
Definitions are object identities, modelled as numeric ids whose structure
(`configs`, `processors`) lives in the environment. -/
structure Reference where
  definition : Option Nat := none
  error : Option JsError := none
  filePath : Option String := none
  id : String
  importerPath : String
deriving DecidableEq, Repr

/-! ## Compiled `files`/`excludedFiles` predicates -/

/-- A `string | string[] | undefined` configuration member. -/
inductive StrOrStrings where
  | undef
  | str (s : String)
  | list (l : List String)
deriving DecidableEq, Repr

/-- `normalizePatterns` of `config-array-factory.js`. -/
def normalizePatterns : StrOrStrings → Option (List String)
  | .list l => if l.length ≥ 1 then some l else none
  | .str s => some [s]
  | .undef => none

/-- A compiled `matchFile` function, as a syntax tree.

`matcher includes excludes` is the closure produced by `defineMatch`
(at least one of the two lists is present when `defineMatch` returns one).

`and f g` is the closure produced by `defineAnd(f, g)`:
`relativePath => f(relativePath) && g(relativePath)`.  Its first argument is
kept optional because `combineMatchFile` passes `normalizedConfig.matchFile`
there — a property of the *generator object* `normalizedConfig`, which is
always `undefined` — so evaluating the combined closure calls `undefined`
as a function. -/
inductive MatchFn where
  | matcher (includes : Option (List String)) (excludes : Option (List String))
  | and (f : Option MatchFn) (g : MatchFn)

/-- `defineMatch(files, excludedFiles)`: compile the two pattern sets into a
predicate, or `none` when both are absent. -/
def defineMatch (files excludedFiles : StrOrStrings) : Option MatchFn :=
  match normalizePatterns files, normalizePatterns excludedFiles with
  | none, none => none
  | incs, excs => some (.matcher incs excs)

/-- Evaluate a compiled predicate on a relative path, given the `minimatch`
primitive `mm pattern path`.  The result `none` models a thrown `TypeError`
(calling an `undefined` left operand produced by `defineAnd`); `&&`
short-circuits as in JavaScript. -/
def evalMatchFn (mm : String → String → Bool) : MatchFn → String → Option Bool
  | .matcher (some incs) (some excs), p =>
      some (incs.any (fun pat => mm pat p) && excs.all (fun pat => !mm pat p))
  | .matcher (some incs) none, p => some (incs.any (fun pat => mm pat p))
  | .matcher none (some excs), p => some (excs.all (fun pat => !mm pat p))
  | .matcher none none, _ => some true
  | .and none _, _ => none
  | .and (some f) g, p =>
      match evalMatchFn mm f p with
      | none => none
      | some false => some false
      | some true => evalMatchFn mm g p

/-! ## Config-array elements -/

/-- The unresolved-or-resolved `processor` member of a config entry: a raw
string from configuration data, or the `{ definition, id }` object that
`resolveProcessor` substitutes for it. -/
inductive ProcVal where
  | str (s : String)
  | resolved (definition : Nat) (id : String)
deriving DecidableEq, Repr

/-- JavaScript truthiness of a `processor` member (the empty string is falsy). -/
def procTruthy : Option ProcVal → Bool
  | none => false
  | some (.str s) => s ≠ ""
  | some (.resolved _ _) => true

/-- A value of the `rules` record: a bare severity, or an
`[severity, ...options]` array. -/
inductive RuleVal where
  | single (v : JsVal)
  | arr (items : List JsVal)
deriving DecidableEq, Repr

/-- `ConfigArrayElement` (config-array-element.js and its twin inside the
`config-array-load` module). -/
structure Element where
  name : String := ""
  filePath : String := ""
  matchFile : Option MatchFn := none
  env : Option JsVal := none
  globals : Option JsVal := none
  parser : Option Reference := none
  parserOptions : Option JsVal := none
  plugins : Option (List (String × Reference)) := none
  processor : Option ProcVal := none
  root : Option Bool := none
  rules : Option (List (String × RuleVal)) := none
  settings : Option JsVal := none

/-- `root && !matchFile` in the `ConfigArrayElement` constructor, with
`root : boolean | undefined`: `undefined && x` is `undefined`, `false && x`
is `false`, and `true && !matchFile` is the boolean `!matchFile`. -/
def jsRootAnd (root : Option Bool) (matchFile : Option MatchFn) : Option Bool :=
  match root with
  | none => none
  | some false => some false
  | some true => some matchFile.isNone

/-- One item yielded by the normalization generator.  Besides proper
`ConfigArrayElement`s, the "extension processors" loop of
`_normalizeConfigData` executes `yield this._normalizeConfigData(...)`
(without `*`), which yields the un-started generator object itself; such an
object has none of the element properties (until `combineMatchFile` assigns
a `matchFile` property onto it). -/
inductive Item where
  | element (e : Element)
  | generator (matchFile : Option MatchFn)

/-- `entry.matchFile`. -/
def Item.getMatchFile : Item → Option MatchFn
  | .element e => e.matchFile
  | .generator mf => mf

/-- `entry.matchFile = m`. -/
def Item.setMatchFile : Item → Option MatchFn → Item
  | .element e, m => .element { e with matchFile := m }
  | .generator _, m => .generator m

/-- `entry.parser` (a generator object has no such property). -/
def Item.parser : Item → Option Reference
  | .element e => e.parser
  | .generator _ => none

/-- `entry.processor`. -/
def Item.processor : Item → Option ProcVal
  | .element e => e.processor
  | .generator _ => none

/-- `entry.env`. -/
def Item.env : Item → Option JsVal
  | .element e => e.env
  | .generator _ => none

/-- `entry.globals`. -/
def Item.globals : Item → Option JsVal
  | .element e => e.globals
  | .generator _ => none

/-- `entry.parserOptions`. -/
def Item.parserOptions : Item → Option JsVal
  | .element e => e.parserOptions
  | .generator _ => none

/-- `entry.settings`. -/
def Item.settings : Item → Option JsVal
  | .element e => e.settings
  | .generator _ => none

/-- `entry.plugins`. -/
def Item.plugins : Item → Option (List (String × Reference))
  | .element e => e.plugins
  | .generator _ => none

/-- `entry.rules`. -/
def Item.rules : Item → Option (List (String × RuleVal))
  | .element e => e.rules
  | .generator _ => none

/-- `entry.root`. -/
def Item.root : Item → Option Bool
  | .element e => e.root
  | .generator _ => none

/-- `ConfigArray#isRoot()`: walk from the end and return the last `root`
that is a boolean (`typeof root === "boolean"`), defaulting to `false`. -/
def isRoot (entries : List Item) : Bool :=
  match entries.reverse.findSome? Item.root with
  | some b => b
  | none => false

/-- `combineMatchFile(normalizedConfig, matchFile)`:

```js
function *combineMatchFile(normalizedConfig, matchFile) {
    if (matchFile) {
        for (const configData of normalizedConfig) {
            if (configData.matchFile) {
                configData.matchFile =
                    defineAnd(normalizedConfig.matchFile, matchFile);
            } else {
                configData.matchFile = matchFile;
            }
            yield configData;
        }
    } else {
        yield* normalizedConfig;
    }
}
```

`normalizedConfig` is the generator being iterated; a generator object has no
`matchFile` property, so `defineAnd` receives `undefined` as its first
argument — hence `MatchFn.and none matchFile` below. -/
def combineMatchFile (items : List Item) (matchFile : Option MatchFn) : List Item :=
  match matchFile with
  | none => items
  | some m =>
    items.map fun it =>
      match it.getMatchFile with
      | some _ => it.setMatchFile (some (.and none m))
      | none => it.setMatchFile (some m)

/-! ## Extraction (config-array-extract.js) -/

/-- The `ExtractedConfigData` object, as initialised by its constructor. -/
structure ExtractedConfigData where
  env : JsVal := .container false .nil
  globals : JsVal := .container false .nil
  parser : Option Reference := none
  parserOptions : JsVal := .container false .nil
  plugins : List (String × Reference) := []
  processor : Option ProcVal := none
  rules : List (String × List JsVal) := []
  settings : JsVal := .container false .nil
deriving DecidableEq, Repr

/-- The `for (const key of Object.keys(source))` loop of
`mergePlugins(target, source)`: for each id of the source, attach it when
the target lacks it (raising a stored error at that moment), and otherwise
throw the duplicated-plugin error exactly when the importer paths differ and
neither reference's `importerPath` equals its own `filePath`.  Note that the
definitions themselves are never compared. -/
def mergePluginsList (target : List (String × Reference)) :
    List (String × Reference) → Except JsError (List (String × Reference))
  | [] => .ok target
  | (key, sourceValue) :: rest =>
    match alistGet target key with
    | none =>
      match sourceValue.error with
      | some e => .error e
      | none => mergePluginsList (alistSet target key sourceValue) rest
    | some targetValue =>
      if targetValue.importerPath ≠ sourceValue.importerPath ∧
          some targetValue.importerPath ≠ targetValue.filePath ∧
          some sourceValue.importerPath ≠ sourceValue.filePath then
        .error (.duplicatedPlugin key targetValue.importerPath
          sourceValue.importerPath)
      else mergePluginsList target rest

/-- `mergePlugins(target, source)` (the `isNonNullObject` guard, then the
`for (const key of Object.keys(source))` loop above). -/
def mergePlugins (target : List (String × Reference))
    (source : Option (List (String × Reference))) :
    Except JsError (List (String × Reference)) :=
  match source with
  | none => .ok target
  | some src => mergePluginsList target src

/-- The key loop of `mergeRules(target, source)`: copy absent rule ids
(promoting a bare severity to a one-element array); when the target holds
`[severity]` and the source an `[severity, ...options]` array, append the
source's options tail. -/
def mergeRulesList (target : List (String × List JsVal)) :
    List (String × RuleVal) → List (String × List JsVal)
  | [] => target
  | (key, sourceDef) :: rest =>
    match alistGet target key with
    | none =>
      match sourceDef with
      | .arr l => mergeRulesList (alistSet target key l) rest
      | .single v => mergeRulesList (alistSet target key [v]) rest
    | some targetDef =>
      match sourceDef with
      | .arr l =>
        if targetDef.length = 1 ∧ l.length ≥ 2 then
          mergeRulesList (alistSet target key (targetDef ++ l.drop 1)) rest
        else mergeRulesList target rest
      | .single _ => mergeRulesList target rest

/-- `mergeRules(target, source)` (the `isNonNullObject` guard, then the
key loop above). -/
def mergeRules (target : List (String × List JsVal))
    (source : Option (List (String × RuleVal))) : List (String × List JsVal) :=
  match source with
  | none => target
  | some src => mergeRulesList target src

/-! ## Configuration data and the external environment -/

/-- The non-recursive members of a `ConfigData` (the tree-shaped input).
`ext` is the `extends` member (`extends` is reserved in Lean).  A `parser`
explicitly set to `null` is modelled as `none`: `normalizeConfigData` guards
it with `if (parser)`, so `null` and absent behave identically. -/
structure ConfigBase where
  files : StrOrStrings := .undef
  excludedFiles : StrOrStrings := .undef
  ext : StrOrStrings := .undef
  parser : Option String := none
  processor : Option String := none
  plugins : Option (List String) := none
  root : Option Bool := none
  env : Option JsVal := none
  globals : Option JsVal := none
  parserOptions : Option JsVal := none
  settings : Option JsVal := none
  rules : Option (List (String × RuleVal)) := none

/-- A `ConfigData`: a body plus the ordered `overrides` list, whose entries
are themselves config data (with `files`/`excludedFiles`). -/
inductive ConfigData where
  | mk (base : ConfigBase) (overrides : List ConfigData)

/-- The body of a config data. -/
def ConfigData.base : ConfigData → ConfigBase
  | .mk b _ => b

/-- The `overrides` list of a config data. -/
def ConfigData.overrides : ConfigData → List ConfigData
  | .mk _ o => o

/-- What the filesystem returns for `loadConfigFile(path)`. -/
inductive LoadResult where
  /-- The file exists and parses to a non-null config. -/
  | found (cd : ConfigData)
  /-- The file exists but provides no config (`package.json` without an
  `eslintConfig` member, a script exporting a falsy value). -/
  | noConfig
  /-- `ENOENT` / `MODULE_NOT_FOUND`: the file does not exist. -/
  | enoent
  /-- `EACCES` / `EPERM`. -/
  | eacces
  /-- The file exists but cannot be parsed. -/
  | readError

/-- The external collaborators: `minimatch` (`mm pattern path`), the
filesystem/loader, `ModuleResolver.resolve` (`none` models a
`MODULE_NOT_FOUND` throw), `require` (returning the identity of the loaded
definition object), and the structure of definition objects
(`definition.processors`, `definition.configs`), modelled as a heap indexed
by definition identity. -/
structure Env where
  mm : String → String → Bool
  fileConfig : String → LoadResult
  resolve : String → String → Option String
  requireDef : String → Nat
  defProcessorNames : Nat → List String
  defProcessor : Nat → String → Option Nat
  defConfig : Nat → String → Option ConfigData

/-! ## Extraction (`extractConfig` of config-array-extract.js) -/

/-- `resolveProcessor(config)`: a still-unresolved `processor` string must be
`pluginId/processorName`; replace it by `{ definition, id }` from the merged
plugins.  `config.processor.indexOf("/")` on an already-resolved processor
object throws a `TypeError` because objects have no `indexOf` method. -/
def resolveProcessor (env : Env) (config : ExtractedConfigData) :
    Except JsError ExtractedConfigData :=
  if procTruthy config.processor then
    match config.processor with
    | some (.str s) =>
      match splitFirstChar '/' s.data with
      | none => .error (.invalidProcessorName s)
      | some (before, after) =>
        let pluginName : String := ⟨before⟩
        let processorName : String := ⟨after⟩
        match alistGet config.plugins pluginName with
        | none => .error (.processorNotFound s)
        | some plugin =>
          match plugin.definition with
          | none => .error (.typeError "plugin.definition.processors")
          | some d =>
            match env.defProcessor d processorName with
            | some procDef =>
              .ok { config with processor := some (.resolved procDef s) }
            | none => .error (.processorNotFound s)
    | some (.resolved _ _) => .error (.typeError "config.processor.indexOf")
    | none => .ok config
  else .ok config

/-- `entry.matchFile && !entry.matchFile(targetFilePath)`, as the question
"does this entry apply?": `some true` when there is no predicate or it
accepts the path, `some false` when it rejects it, `none` when evaluating
the predicate throws. -/
def itemApplies (env : Env) (path : String) (it : Item) : Option Bool :=
  match it.getMatchFile with
  | none => some true
  | some fn => evalMatchFn env.mm fn path

/-- `awo` applied to an optional source (an absent member merges nothing). -/
def mergeJs (target : JsVal) (source : Option JsVal) : JsVal :=
  match source with
  | none => target
  | some v => awo target v

/-- The merge section of the extraction loop body after the `parser` member:
`processor` (first truthy wins), the four `assignWithoutOverwrite` calls,
`mergePlugins` (which can throw), `mergeRules`. -/
def mergeEntryRest (config : ExtractedConfigData) (it : Item) :
    Except JsError ExtractedConfigData :=
  let config :=
    if !procTruthy config.processor && procTruthy it.processor then
      { config with processor := it.processor }
    else config
  let config := { config with
    env := mergeJs config.env it.env,
    globals := mergeJs config.globals it.globals,
    parserOptions := mergeJs config.parserOptions it.parserOptions,
    settings := mergeJs config.settings it.settings }
  match mergePlugins config.plugins it.plugins with
  | .error e => .error e
  | .ok plugins =>
    .ok { config with plugins := plugins,
                      rules := mergeRules config.rules it.rules }

/-- The merge section of the extraction loop body, in source order: `parser`
(first truthy wins, raising a stored error at selection time), then the
rest. -/
def mergeEntry (config : ExtractedConfigData) (it : Item) :
    Except JsError ExtractedConfigData :=
  match config.parser, it.parser with
  | none, some r =>
    match r.error with
    | some e => .error e
    | none => mergeEntryRest { config with parser := some r } it
  | _, _ => mergeEntryRest config it

/-- One iteration of the extraction loop: skip the entry when its predicate
rejects the path (propagating a predicate that throws), merge otherwise. -/
def extractStep (env : Env) (path : String) (config : ExtractedConfigData)
    (it : Item) : Except JsError ExtractedConfigData :=
  match itemApplies env path it with
  | none => .error (.typeError "entry.matchFile")
  | some false => .ok config
  | some true => mergeEntry config it

/-- `extractConfig(entries, targetFilePath)`: walk the entries from the last
index down to the first, merging every entry that applies into a fresh
`ExtractedConfigData`, then resolve the processor. -/
def extractConfig (env : Env) (entries : List Item) (targetFilePath : String) :
    Except JsError ExtractedConfigData := do
  let config ← entries.reverse.foldlM (extractStep env targetFilePath) {}
  resolveProcessor env config

/-! ## Reference resolution (`loadParser`, `loadPlugin`, `loadPlugins`) -/

/-- Modelled from the spec: `naming.js` is not under `src/`.  §4.D: a
specifier is normalized by prepending `<pfx>-` unless it already starts with
the package prefix (scoped packages are exercised by no claim). -/
def normalizePackageName (name pfx : String) : String :=
  if startsWithS name pfx then name else pfx ++ "-" ++ name

/-- Modelled from the spec: `naming.js` is not under `src/`.  The shorthand
id drops the `<pfx>-` package prefix. -/
def getShorthandName (longName pfx : String) : String :=
  if startsWithS longName (pfx ++ "-") then
    dropS longName (pfx ++ "-").length
  else longName

/-- `loadParser(nameOrPath, importerPath)`: resolve and `require` the module;
any failure is caught and stored on the returned reference. -/
def loadParser (env : Env) (nameOrPath importerPath : String) : Reference :=
  match env.resolve nameOrPath importerPath with
  | some filePath =>
    { definition := some (env.requireDef filePath), filePath := some filePath,
      id := nameOrPath, importerPath := importerPath }
  | none =>
    { error := some (.moduleNotFound nameOrPath), id := nameOrPath,
      importerPath := importerPath }

/-- `loadPlugin(name, importerPath)` of the `config-array-load` module (the
variant without a plugin pool): whitespace in the name, or a failed module
resolution, is stored on the returned reference instead of being thrown. -/
def loadPlugin (env : Env) (name importerPath : String) : Reference :=
  let longName := normalizePackageName name "eslint-plugin"
  let id := getShorthandName longName "eslint-plugin"
  if anyS name Char.isWhitespace then
    { error := some (.whitespaceFound longName), id := id,
      importerPath := importerPath }
  else
    match env.resolve longName importerPath with
    | some filePath =>
      { definition := some (env.requireDef filePath),
        filePath := some filePath, id := id, importerPath := importerPath }
    | none =>
      { error := some (.pluginMissing longName), id := id,
        importerPath := importerPath }

/-- `loadPlugins(names, importerPath)` of the `config-array-load` module:
build the id-to-reference mapping with JavaScript property assignment. -/
def loadPlugins (env : Env) (names : List String) (importerPath : String) :
    List (String × Reference) :=
  names.foldl
    (fun map name =>
      let plugin := loadPlugin env name importerPath
      alistSet map plugin.id plugin)
    []

namespace ConfigArrayFactory

/-- `ConfigArrayFactory._loadPlugin(name, importerPath)`: like `loadPlugin`,
but the caller-supplied additional plugin pool is consulted first (under the
long name, then the shorthand id); a pool hit returns a loaded reference
whose `filePath` is the importer path itself. -/
def loadPluginP (env : Env) (pool : List (String × Nat))
    (name importerPath : String) : Reference :=
  let longName := normalizePackageName name "eslint-plugin"
  let id := getShorthandName longName "eslint-plugin"
  if anyS name Char.isWhitespace then
    { error := some (.whitespaceFound longName), id := id,
      importerPath := importerPath }
  else
    match (alistGet pool longName).orElse (fun _ => alistGet pool id) with
    | some plugin =>
      { definition := some plugin, filePath := some importerPath, id := id,
        importerPath := importerPath }
    | none =>
      match env.resolve longName importerPath with
      | some filePath =>
        { definition := some (env.requireDef filePath),
          filePath := some filePath, id := id, importerPath := importerPath }
      | none =>
        { error := some (.pluginMissing longName), id := id,
          importerPath := importerPath }

/-- `ConfigArrayFactory._loadPlugins(names, importerPath)`:

```js
_loadPlugins(names, importerPath) {
    return names.reduce((map, name) => {
        const plugin = this._loadPlugins(name, importerPath);
        map[plugin.id] = plugin;
        return map;
    }, {});
}
```

The reduce callback calls `this._loadPlugins` — the method itself, not
`_loadPlugin` — passing the string `name` as the `names` argument; the
recursive call immediately evaluates `names.reduce` on that string, and
strings have no `reduce` method, so every non-empty plugin list throws a
`TypeError`.  An empty array returns the initial `{}` without ever invoking
the callback. -/
def loadPluginsM (names : List String) (_importerPath : String) :
    Except JsError (List (String × Reference)) :=
  match names with
  | [] => .ok []
  | _ :: _ => .error (.typeError "names.reduce")

end ConfigArrayFactory

/-! ## Schema validation

`validateConfigSchema` lives in `lib/config/config-validator.js`, which is
not under `src/`; the checks below are modelled from the spec (§4.B) and
follow the schema data in `src/conf/config-schema.js`: the top-level
`objectConfig` allows `root` but (having `additionalProperties: false`) no
`files`/`excludedFiles`; an `overrideConfig` requires `files`, allows
`excludedFiles`, and forbids `root`.  Members whose types the Lean data
model already fixes need no check. -/

/-- No string occurs twice (`uniqueItems`). -/
def strListNodup : List String → Bool
  | [] => true
  | x :: xs => !xs.contains x && strListNodup xs

/-- `stringOrStrings` / `stringOrStringsRequired`. -/
def validPatterns (required : Bool) : StrOrStrings → Bool
  | .undef => !required
  | .str _ => true
  | .list l => (!required || l.length ≥ 1) && strListNodup l

/-- `{ type: "object" }` (arrays are not objects in JSON schema). -/
def validObjOpt : Option JsVal → Bool
  | none => true
  | some (.container false _) => true
  | some _ => false

mutual
/-- Validity of a config against the top-level (`topLevel = true`) or
override mode of the schema. -/
def validConfigData : Nat → Bool → ConfigData → Bool
  | 0, _, _ => false
  | fuel+1, topLevel, .mk b ovs =>
    (if topLevel then
      (match b.files, b.excludedFiles with
       | .undef, .undef => true
       | _, _ => false)
     else
      validPatterns true b.files && validPatterns false b.excludedFiles &&
        b.root.isNone) &&
    validPatterns false b.ext &&
    validObjOpt b.env && validObjOpt b.globals &&
    validObjOpt b.parserOptions && validObjOpt b.settings &&
    validConfigList fuel ovs

/-- Validity of an `overrides` list (every entry in override mode). -/
def validConfigList : Nat → List ConfigData → Bool
  | 0, _ => false
  | _fuel+1, [] => true
  | fuel+1, ov :: rest => validConfigData fuel false ov && validConfigList fuel rest
end

/-! ## Normalization (`_normalizeConfigData` and the load functions) -/

/-- The element constructor `new ConfigArrayElement(configBody, { name,
filePath, matchFile })`: `configBody` is the config minus
`files`/`excludedFiles`/`extends`/`overrides`, with `parser`/`plugins`
already replaced by their resolved references; `root` is and-masked with the
absence of `matchFile`. -/
def mkConfigArrayElement (cb : ConfigBase) (parserRef : Option Reference)
    (pluginsMap : Option (List (String × Reference)))
    (name filePath : String) (matchFile : Option MatchFn) : Element :=
  { name := name, filePath := filePath, matchFile := matchFile,
    env := cb.env, globals := cb.globals, parser := parserRef,
    parserOptions := cb.parserOptions, plugins := pluginsMap,
    processor := cb.processor.map ProcVal.str,
    root := jsRootAnd cb.root matchFile,
    rules := cb.rules, settings := cb.settings }

/-- The "extension processors" loop of `_normalizeConfigData`: for every
loaded plugin whose definition exports a processor id beginning with `.`,
the code executes `yield this._normalizeConfigData({...})` — without `*` —
which yields the un-started generator object itself as an array item. -/
def extProcessorItems (env : Env)
    (plugins : Option (List (String × Reference))) : List Item :=
  match plugins with
  | none => []
  | some m =>
    m.foldr
      (fun kv acc =>
        (match kv.2.definition with
         | none => []
         | some d =>
           ((env.defProcessorNames d).filter
             (fun pid => startsWithS pid ".")).map
             (fun _ => Item.generator none)) ++ acc)
      []

/-- `[extend].filter(Boolean)` / the `Array.isArray(extend)` normalization of
the `extends` member. -/
def toExtendList : StrOrStrings → List String
  | .list l => l
  | .str s => if s = "" then [] else [s]
  | .undef => []

/-- The plugin-loading entry points, the only place where the two copies of
the normalizer differ: the `config-array-load` module calls its (correct)
`loadPlugins`/`loadPlugin` functions, while `ConfigArrayFactory` calls its
`_loadPlugins` method (which throws on non-empty lists) and pool-aware
`_loadPlugin`. -/
structure NormImpls where
  loadPluginsImpl : List String → String → Except JsError (List (String × Reference))
  loadPluginImpl : String → String → Reference

/-- The implementations used by the `config-array-load` module. -/
def part001Impls (env : Env) : NormImpls :=
  { loadPluginsImpl := fun names importerPath =>
      .ok (loadPlugins env names importerPath),
    loadPluginImpl := fun name importerPath =>
      loadPlugin env name importerPath }

/-- The implementations used by `ConfigArrayFactory`. -/
def factoryImpls (env : Env) (pool : List (String × Nat)) : NormImpls :=
  { loadPluginsImpl := ConfigArrayFactory.loadPluginsM,
    loadPluginImpl := fun name importerPath =>
      ConfigArrayFactory.loadPluginP env pool name importerPath }

/-- `path.resolve(__dirname, "../../conf/eslint-recommended.js")`. -/
def eslintRecommendedPath : String := "/eslint/conf/eslint-recommended.js"

/-- `path.resolve(__dirname, "../../conf/eslint-all.js")`. -/
def eslintAllPath : String := "/eslint/conf/eslint-all.js"

/-- The ordered per-directory config file names. -/
def configFilenames : List String :=
  [".eslintrc.js", ".eslintrc.yaml", ".eslintrc.yml", ".eslintrc.json",
   ".eslintrc", "package.json"]

/-- Render a component list as an absolute path (`[] ≃ "/"`). -/
def renderPath (p : List String) : String :=
  "/" ++ ⟨intercalateChar '/' (p.map String.data)⟩

/-- Modelled from Node's `path.basename` (the `path` module is external). -/
def basename (p : String) : String :=
  ⟨((splitChar '/' p.data).getLastD p.data)⟩

/-- Modelled from Node's `path.resolve(path.dirname(filePath), name)` for a
relative `name` (no `..` normalization is needed by any claim). -/
def resolveRelativeTo (filePath name : String) : String :=
  (⟨intercalateChar '/' (splitChar '/' filePath.data).dropLast⟩ : String) ++
    "/" ++ name

/-- The index of the last occurrence of `c`, as `lastIndexOf` computes it. -/
def lastIndexOfChar (cs : List Char) (c : Char) : Option Nat :=
  match cs.reverse.findIdx? (· = c) with
  | some j => some (cs.length - 1 - j)
  | none => none

/-- `name.slice(7, name.lastIndexOf("/"))` paired with
`name.slice(name.lastIndexOf("/") + 1)`.  Without a `/`, `lastIndexOf`
returns `-1`: the plugin name is `name.slice(7, -1)` (up to, excluding, the
last character) and the config name `name.slice(0)` is the whole string. -/
def splitPluginExtendName (name : String) : String × String :=
  let cs := name.toList
  match lastIndexOfChar cs '/' with
  | some i => (String.mk ((cs.drop 7).take (i - 7)), String.mk (cs.drop (i + 1)))
  | none => (String.mk ((cs.drop 7).take (cs.length - 1 - 7)), name)

/-- The shareable-config test `/^(?:\w|@)(?!:)/.test(name)`. -/
def isPackageNameSpecifier (s : String) : Bool :=
  match s.toList with
  | [] => false
  | c :: rest =>
    (c.isAlphanum || c = '_' || c = '@') &&
    (match rest with
     | ':' :: _ => false
     | _ => true)

mutual
/-- `_normalizeConfigData(configData, { filePath, name })`: flatten one
config into the ordered item sequence — `extends` expansions (with the
parent predicate combined on), the extension-processor yields, the body
element, then the `overrides` expansions (predicate combined on).  The
generator is lazy in JavaScript; every call site spreads it into an array
immediately, which this eager model reproduces.  `fuel` bounds the `extends`
recursion depth (JavaScript would overflow the stack on an unbounded
chain). -/
def normalizeConfigDataW (env : Env) (impls : NormImpls) :
    Nat → ConfigData → String → String → Except JsError (List Item)
  | 0, _, _, _ => .error .stackOverflow
  | fuel+1, .mk cb overrideList, filePath, name => do
    let matchFile := defineMatch cb.files cb.excludedFiles
    let extItems ← normExtendsList env impls fuel (toExtendList cb.ext)
        filePath matchFile
    let parserRef := cb.parser.map (fun p => loadParser env p filePath)
    let pluginsMap ←
      match cb.plugins with
      | none => pure none
      | some names => do
        let m ← impls.loadPluginsImpl names filePath
        pure (some m)
    let procItems := extProcessorItems env pluginsMap
    let body := Item.element
      (mkConfigArrayElement cb parserRef pluginsMap name filePath matchFile)
    let ovItems ← normOverridesList env impls fuel overrideList filePath name 0
        matchFile
    pure (extItems ++ procItems ++ [body] ++ ovItems)

/-- The `for (const extendName of extendList)` loop, each expansion run
through `combineMatchFile`. -/
def normExtendsList (env : Env) (impls : NormImpls) :
    Nat → List String → String → Option MatchFn → Except JsError (List Item)
  | 0, _, _, _ => .error .stackOverflow
  | _fuel+1, [], _, _ => pure []
  | fuel+1, extendName :: rest, filePath, matchFile => do
    let items ← loadExtendsW env impls fuel extendName filePath
    let more ← normExtendsList env impls fuel rest filePath matchFile
    pure (combineMatchFile items matchFile ++ more)

/-- The `overrides` loop, each normalization run through
`combineMatchFile`; `i` is the running index used in the derived name. -/
def normOverridesList (env : Env) (impls : NormImpls) :
    Nat → List ConfigData → String → String → Nat → Option MatchFn →
    Except JsError (List Item)
  | 0, _, _, _, _, _ => .error .stackOverflow
  | _fuel+1, [], _, _, _, _ => pure []
  | fuel+1, ov :: rest, filePath, name, i, matchFile => do
    let items ← normalizeConfigDataW env impls fuel ov filePath
        (name ++ "#overrides[" ++ toString i ++ "]")
    let more ← normOverridesList env impls fuel rest filePath name (i + 1)
        matchFile
    pure (combineMatchFile items matchFile ++ more)

/-- `_loadExtends(name, filePath)`: dispatch on the specifier prefix.
`eslint:` names other than the two built-ins, and plugin configs that do not
exist, throw the extend-config-missing error; module resolution failures for
shareable configs propagate (there is no catch here). -/
def loadExtendsW (env : Env) (impls : NormImpls) :
    Nat → String → String → Except JsError (List Item)
  | 0, _, _ => .error .stackOverflow
  | fuel+1, name, filePath =>
    if startsWithS name "eslint:" then
      if name = "eslint:recommended" then
        loadConfigDataW env impls fuel eslintRecommendedPath (some name)
      else if name = "eslint:all" then
        loadConfigDataW env impls fuel eslintAllPath (some name)
      else .error (.extendConfigMissing name)
    else if startsWithS name "plugin:" then
      let pn := splitPluginExtendName name
      let plugin := impls.loadPluginImpl pn.1 filePath
      match plugin.definition.bind (fun d => env.defConfig d pn.2) with
      | some pluginConfigData =>
        if validConfigData fuel true pluginConfigData then
          normalizeConfigDataW env impls fuel pluginConfigData
            (plugin.filePath.getD "") name
        else .error (.invalidConfig name)
      | none => .error (.extendConfigMissing name)
    else if isPackageNameSpecifier name then
      match env.resolve (normalizePackageName name "eslint-config") filePath with
      | some configFilePath =>
        loadConfigDataW env impls fuel configFilePath (some name)
      | none => .error (.moduleNotFound (normalizePackageName name "eslint-config"))
    else if startsWithS name "/" then
      loadConfigDataW env impls fuel name none
    else
      loadConfigDataW env impls fuel (resolveRelativeTo filePath name) none

/-- `_loadConfigData(filePath, { name })`: load, validate, fail on a null
config, and normalize. -/
def loadConfigDataW (env : Env) (impls : NormImpls) :
    Nat → String → Option String → Except JsError (List Item)
  | 0, _, _ => .error .stackOverflow
  | fuel+1, filePath, nameOpt =>
    match env.fileConfig filePath with
    | .found cd =>
      if validConfigData fuel true cd then
        normalizeConfigDataW env impls fuel cd filePath
          (nameOpt.getD (basename filePath))
      else .error (.invalidConfig filePath)
    | .noConfig => .error (.configDataNotFound (nameOpt.getD filePath))
    | .enoent => .error (.enoent filePath)
    | .eacces => .error (.permission filePath)
    | .readError => .error (.cannotReadConfig filePath)

/-- The filename loop of `_loadConfigDataOnDirectory`: try each candidate in
order; a missing file or a null config moves on to the next candidate, any
other failure propagates; `none` when no candidate provides a config. -/
def loadOnDirFilenames (env : Env) (impls : NormImpls) :
    Nat → List String → List String → Except JsError (Option (List Item))
  | 0, _, _ => .error .stackOverflow
  | _fuel+1, _, [] => pure none
  | fuel+1, dirPath, fn :: rest =>
    let filePath := renderPath (dirPath ++ [fn])
    match env.fileConfig filePath with
    | .found cd =>
      if validConfigData fuel true cd then do
        let items ← normalizeConfigDataW env impls fuel cd filePath fn
        pure (some items)
      else .error (.invalidConfig filePath)
    | .noConfig => loadOnDirFilenames env impls fuel dirPath rest
    | .enoent => loadOnDirFilenames env impls fuel dirPath rest
    | .eacces => .error (.permission filePath)
    | .readError => .error (.cannotReadConfig filePath)
end

/-- `_loadConfigDataOnDirectory(directoryPath)` (no explicit name: the
normalizer defaults to the file's basename, i.e. the candidate filename). -/
def loadConfigDataOnDirectoryW (env : Env) (impls : NormImpls) (fuel : Nat)
    (dirPath : List String) : Except JsError (Option (List Item)) :=
  loadOnDirFilenames env impls fuel dirPath configFilenames

/-- The do-while loop of `loadInAncestors`: process `currentPath`, prepend a
found config, stop on a root config, break out silently on a permission
error, and otherwise step to the parent until the path stops changing
(`path.dirname("/") === "/"`).  The remaining path is passed with its
components reversed so that taking the parent is `List.tail`. -/
def loadInAncestorsLoop (env : Env) (impls : NormImpls) (fuel : Nat) :
    List String → List Item → Except JsError (List Item)
  | revPath, configArray =>
    match loadConfigDataOnDirectoryW env impls fuel revPath.reverse with
    | .error (.permission _) => .ok configArray
    | .error e => .error e
    | .ok dirResult =>
      let next :=
        match dirResult with
        | some items => (items ++ configArray, isRoot items)
        | none => (configArray, false)
      if next.2 then .ok next.1
      else
        match revPath with
        | [] => .ok next.1
        | _ :: parentRev => loadInAncestorsLoop env impls fuel parentRev next.1

/-- `loadInAncestors(directoryPath, { parent, usePersonalEslintrc })`: walk
the ancestors starting at the parent directory, then fall back once to the
home directory when nothing at all was collected. -/
def loadInAncestors (env : Env) (impls : NormImpls) (fuel : Nat)
    (directoryPath : List String) (parent : List Item)
    (usePersonalEslintrc : Bool) (homedir : List String) :
    Except JsError (List Item) := do
  let configArray ← loadInAncestorsLoop env impls fuel
    directoryPath.dropLast.reverse parent
  if configArray.length = 0 ∧ usePersonalEslintrc then
    match ← loadConfigDataOnDirectoryW env impls fuel homedir with
    | some personal => pure (personal ++ configArray)
    | none => pure configArray
  else
    pure configArray

/-- `create(elements, parentConfigArray)` (identical helper in
`config-array.js` and `config-array-factory.js`): a root array discards the
parent, otherwise the parent is prepended. -/
def createCA (elements : Option (List Item)) (parent : Option (List Item)) :
    List Item :=
  match elements with
  | none => parent.getD []
  | some items =>
    match parent with
    | some p => if isRoot items then items else p ++ items
    | none => items

/-- `loadFile(filePath, { name, parent })`. -/
def loadFileCA (env : Env) (impls : NormImpls) (fuel : Nat) (filePath : String)
    (nameOpt : Option String) (parent : Option (List Item)) :
    Except JsError (List Item) := do
  let items ← loadConfigDataW env impls fuel filePath nameOpt
  pure (createCA (some items) parent)

/-! ## Glob planning (file-enumerator.js) -/

/-- A glob segment containing glob syntax. -/
def segHasMagic (seg : String) : Bool :=
  anyS seg (fun c =>
    c ∈ ['*', '?', '[', ']', '\x7b', '\x7d', '(', ')', '!', '+', '@'])

/-- Modelled from the spec: the `glob-parent` dependency is an external npm
package; §4.I calls its result "the literal prefix before the first magic
segment", `"."` when the pattern starts with one. -/
def getGlobParent (pattern : String) : String :=
  let lead := (splitChar '/' pattern.data).takeWhile
    (fun seg => !segHasMagic ⟨seg⟩)
  if lead.isEmpty then "." else ⟨intercalateChar '/' lead⟩

/-- `/\*\*|\/|\\/u.test(globPart)`. -/
def hasGlobSpan (s : String) : Bool :=
  hasDoubleStar s.data || s.data.contains '/' || s.data.contains '\\'

/-- Modelled from Node's `path.resolve(cwd, rel)` for the inputs that occur
here (a relative segment, `"."`, or an absolute path). -/
def pathResolve (cwd rel : String) : String :=
  if rel = "." then cwd
  else if startsWithS rel "/" then rel
  else cwd ++ "/" ++ rel

/-- What a glob pattern is turned into before the directory walk starts:
the walk's starting directory, the Minimatch selector source pattern, and
the recursion flag. -/
structure GlobWalkStart where
  directoryPath : String
  selectorPattern : String
  recursive : Bool
deriving DecidableEq, Repr

/-- The planning prefix of `FileEnumerator._iterateFilesWithGlob` (the first
copy in file-enumerator.js):
`recursive = globParent !== "." && /\*\*|\/|\\/u.test(globPart)`. -/
def iterateFilesWithGlobPlan (cwd pattern : String) : GlobWalkStart :=
  let globParent := getGlobParent pattern
  { directoryPath := pathResolve cwd globParent,
    selectorPattern := pattern,
    recursive :=
      !(globParent == ".") &&
        hasGlobSpan (dropS pattern (globParent.length + 1)) }

/-- The planning prefix of `FileEnumerator.iterateFilesWithGlob` (the second
copy): `recursive = globParent === "." || /\*\*|\/|\\/u.test(globPart)`. -/
def iterateFilesWithGlobPlanV2 (cwd pattern : String) : GlobWalkStart :=
  let globParent := getGlobParent pattern
  { directoryPath := pathResolve cwd globParent,
    selectorPattern := pattern,
    recursive :=
      globParent == "." ||
        hasGlobSpan (dropS pattern (globParent.length + 1)) }

/-- Re-packaging an extracted config as a single config entry (the round-trip
claim's "extract(array, p) as single-element-array"): the extracted object
exposes exactly its eight data properties and has no `matchFile`, no `root`,
no `name`, no `filePath`. -/
def ExtractedConfigData.toItem (c : ExtractedConfigData) : Item :=
  .element
    { env := some c.env, globals := some c.globals, parser := c.parser,
      parserOptions := some c.parserOptions, plugins := some c.plugins,
      processor := c.processor,
      rules := some (c.rules.map fun kv => (kv.1, RuleVal.arr kv.2)),
      settings := some c.settings }

/-- Every key of `sf` is absent from `acc`. -/
def keysAbsent (acc : JsFields) : JsFields → Bool
  | .nil => true
  | .cons k _ rest => (jsGet acc k).isNone && keysAbsent acc rest

/-- A plain (non-array) object container. -/
def isObjF : JsVal → Bool
  | .container false _ => true
  | _ => false

/-- Well-formedness of an optional object member. -/
def optWf : Option JsVal → Bool
  | none => true
  | some v => v.wfB

/-- The four deep-merged members of a config entry are real JavaScript
object graphs (no duplicated keys at any level).  Every entry produced by
normalizing actual JavaScript configuration data satisfies this; the
association-list model is merely more permissive. -/
def Item.wfJs (it : Item) : Bool :=
  optWf it.env && optWf it.globals && optWf it.parserOptions &&
    optWf it.settings

/-- The invariant extraction maintains on its accumulator: the four
deep-merged members are plain objects without duplicated keys, the plugin
map has distinct keys and only error-free references, the rules map has
distinct keys, and a chosen parser is error-free. -/
def ExtractedConfigData.wfX (c : ExtractedConfigData) : Bool :=
  isObjF c.env && isObjF c.globals && isObjF c.parserOptions &&
  isObjF c.settings &&
  c.env.wfB && c.globals.wfB && c.parserOptions.wfB && c.settings.wfB &&
  keysNodup c.plugins &&
  c.plugins.all (fun kv => kv.2.error.isNone) &&
  keysNodup c.rules &&
  (match c.parser with
   | none => true
   | some r => r.error.isNone)

/-! ## General-purpose lemmas -/

theorem except_bind_ok {ε α β : Type} (x : Except ε α) (f : α → Except ε β)
    (b : β) (h : x >>= f = .ok b) : ∃ a, x = .ok a ∧ f a = .ok b := by
  cases x with
  | error e => simp [Bind.bind, Except.bind] at h
  | ok a => exact ⟨a, rfl, by simpa [Bind.bind, Except.bind] using h⟩

/-- An array on which `isRoot()` returns `true` is nonempty. -/
theorem ne_nil_of_isRoot {entries : List Item} (h : isRoot entries = true) :
    entries ≠ [] := by
  rintro rfl
  simp [isRoot, List.findSome?] at h

/-! ## Concrete environments and fixtures used by the claim theorems -/

/-- An environment in which nothing resolves and no file exists. -/
def envNull : Env :=
  { mm := fun _ _ => false,
    fileConfig := fun _ => .enoent,
    resolve := fun _ _ => none,
    requireDef := fun _ => 0,
    defProcessorNames := fun _ => [],
    defProcessor := fun _ _ => none,
    defConfig := fun _ _ => none }

/-! ### C1 fixtures: three applicable parser-carrying entries -/

/-- A loaded parser reference, numbered. -/
def refP (n : Nat) : Reference :=
  { definition := some n, filePath := some ("/p" ++ toString n), id := "p",
    importerPath := "/c" }

/-- An unconditional entry carrying only parser number `n`. -/
def elemP (n : Nat) : Item := .element { parser := some (refP n) }

/-! ### C3 fixture: an override nested inside an override -/

/-- `{ overrides: [{ files: "*.ts", overrides: [{ files: "*.spec.ts" }] }] }` -/
def cfgC3 : ConfigData :=
  .mk {} [.mk { files := .str "*.ts" } [.mk { files := .str "*.spec.ts" } []]]

/-! ### C4 fixtures: same definition object, different importers -/

/-- First reference to plugin `p`: definition object `7`, importer `/ia`. -/
def refA4 : Reference :=
  { definition := some 7, filePath := some "/fa", id := "p",
    importerPath := "/ia" }

/-- Second reference to plugin `p`: the same definition object `7`,
importer `/ib`. -/
def refB4 : Reference :=
  { definition := some 7, filePath := some "/fb", id := "p",
    importerPath := "/ib" }

/-! ### C6 fixtures: two resolvable plugins -/

/-- Environment resolving the plugins `foo` and `bar`. -/
def envC6 : Env := { envNull with
  resolve := fun name _ =>
    if name = "eslint-plugin-foo" then some "/nm/eslint-plugin-foo/index.js"
    else if name = "eslint-plugin-bar" then some "/nm/eslint-plugin-bar/index.js"
    else none,
  requireDef := fun fp => if fp = "/nm/eslint-plugin-foo/index.js" then 1 else 2 }

/-- `{ plugins: ["foo", "bar"] }` -/
def cfgC6 : ConfigData := .mk { plugins := some ["foo", "bar"] } []

/-- The reference `_loadPlugins`' callers expect for `foo`. -/
def refFoo : Reference :=
  { definition := some 1, filePath := some "/nm/eslint-plugin-foo/index.js",
    id := "foo", importerPath := "/prj/.eslintrc.json" }

/-- The reference `_loadPlugins`' callers expect for `bar`. -/
def refBar : Reference :=
  { definition := some 2, filePath := some "/nm/eslint-plugin-bar/index.js",
    id := "bar", importerPath := "/prj/.eslintrc.json" }

/-! ### C9 fixtures: an override extending a root config file -/

/-- `/main.json = { overrides: [{ files: "*.ts", extends: "/r.js" }] }` -/
def cfgC9main : ConfigData :=
  .mk {} [.mk { files := .str "*.ts", ext := .str "/r.js" } []]

/-- `/r.js = { root: true }` -/
def cfgC9root : ConfigData := .mk { root := some true } []

/-- The filesystem carrying the two files above. -/
def envC9 : Env := { envNull with
  fileConfig := fun p =>
    if p = "/main.json" then .found cfgC9main
    else if p = "/r.js" then .found cfgC9root
    else .enoent }

/-- The element flattened from `/r.js`: it keeps `root: true` although
`combineMatchFile` attached the override's predicate to it afterwards. -/
def elemC9 : Element :=
  { name := "r.js", filePath := "/r.js",
    matchFile := some (.matcher (some ["*.ts"]) none), root := some true }

/-! ### C5 fixtures: a failing plugin behind an override -/

/-- An environment whose module resolver finds nothing and whose `minimatch`
matches a `*`-prefixed pattern by suffix. -/
def envC5 : Env := { envNull with
  mm := fun pat path => endsWithS path (dropS pat 1) }

/-- `{ overrides: [{ files: "*.md", plugins: ["q"] }] }` — the only element
referencing the failed plugin `q` is gated on `*.md`. -/
def cfgC5A : ConfigData :=
  .mk {} [.mk { files := .str "*.md", plugins := some ["q"] } []]

/-- `{ plugins: ["q"] }` — the body element carries the failed plugin. -/
def cfgC5B : ConfigData := .mk { plugins := some ["q"] } []

/-! ### C2 fixtures: a two-directory cascade with a `root` sentinel -/

/-- `/a/.eslintrc.json = { rules: { r1: "error" } }` -/
def cfgC2A : ConfigData :=
  .mk { rules := some [("r1", .single (.prim (.str "error")))] } []

/-- `/a/b/.eslintrc.json = { root: true, rules: { r2: "warn" } }` -/
def cfgC2B : ConfigData :=
  .mk { root := some true,
        rules := some [("r2", .single (.prim (.str "warn")))] } []

/-- The filesystem carrying the two config files of the cascade scenario. -/
def envC2 : Env := { envNull with
  fileConfig := fun p =>
    if p = "/a/.eslintrc.json" then .found cfgC2A
    else if p = "/a/b/.eslintrc.json" then .found cfgC2B
    else .enoent }

/-- The element flattened from `/a/b/.eslintrc.json`. -/
def itemC2B : Item :=
  .element { name := ".eslintrc.json", filePath := "/a/b/.eslintrc.json",
             root := some true,
             rules := some [("r2", .single (.prim (.str "warn")))] }

/-! ### C8 fixtures: a plugin-provided processor, and a processor-free
element -/

/-- A loaded reference to plugin `p` (definition object 5). -/
def refPl : Reference :=
  { definition := some 5, filePath := some "/pl", id := "p",
    importerPath := "/c" }

/-- An environment in which definition object 5 exposes a processor `x`
(processor definition object 42). -/
def envC8 : Env :=
  { envNull with
    defProcessor := fun d n => if d = 5 ∧ n = "x" then some 42 else none }

/-- A single element selecting processor `p/x` from plugin `p`. -/
def itemsC8 : List Item :=
  [.element
    { plugins := some [("p", refPl)], processor := some (.str "p/x") }]

/-- A processor-free element (settings object plus one rule) used to
instantiate the idempotence theorem at a concrete input. -/
def itemW : Item :=
  .element
    { settings := some (.container false (.cons "s" (.prim (.str "v")) .nil)),
      rules := some [("r", .single (.prim (.num 2)))] }

/-- The extraction of `itemW` alone. -/
def cW : ExtractedConfigData :=
  { settings := .container false (.cons "s" (.prim (.str "v")) .nil),
    rules := [("r", [.prim (.num 2)])] }

/-! ## C1 — parser: later element wins

The code walks from the last index to the first and keeps the first non-null
parser, so the *last* applicable parser-carrying element wins.  Quantified
over every pair `e1 < e2` of applicable parser carriers, as the claim is
stated, the property fails as soon as a third parser carrier follows `e2`. -/

/-- C1, counterexample: in the three-entry array `[elemP 1, elemP 2, elemP 3]`
the pair `e1 = elemP 1`, `e2 = elemP 2` (indices 0 < 1) both carry non-null
parsers and both apply to `"a.js"`, yet the extracted parser is `refP 3`,
not `e2`'s parser `refP 2`. -/
theorem extractConfig_parser_pair_counterexample :
    itemApplies envNull "a.js" (elemP 1) = some true ∧
    itemApplies envNull "a.js" (elemP 2) = some true ∧
    (elemP 1).parser = some (refP 1) ∧
    (elemP 2).parser = some (refP 2) ∧
    (extractConfig envNull [elemP 1, elemP 2, elemP 3] "a.js").map
        ExtractedConfigData.parser = .ok (some (refP 3)) ∧
    refP 3 ≠ refP 2 :=
  ⟨rfl, rfl, rfl, rfl, rfl, by decide⟩

/-! ## Parser-tracking lemmas for the extraction walk -/

/-- `mergeEntryRest` never touches the `parser` member. -/
theorem mergeEntryRest_parserEq (c : ExtractedConfigData) (it : Item)
    (c' : ExtractedConfigData) (h : mergeEntryRest c it = .ok c') :
    c'.parser = c.parser := by
  simp only [mergeEntryRest] at h
  split at h
  · exact absurd h (by simp)
  · cases h
    split <;> rfl

/-- `mergeEntry` keeps the accumulated parser when one is already chosen, or
when the entry carries none. -/
theorem mergeEntry_parser_keep (c : ExtractedConfigData) (it : Item)
    (c' : ExtractedConfigData) (h : mergeEntry c it = .ok c')
    (hside : c.parser.isSome = true ∨ it.parser = none) :
    c'.parser = c.parser := by
  unfold mergeEntry at h
  rcases hc : c.parser with _ | p <;> rcases hi : it.parser with _ | r <;>
    simp only [hc, hi] at h
  · exact (mergeEntryRest_parserEq _ _ _ h).trans (by rw [hc])
  · rcases hside with hs | hs
    · rw [hc] at hs; simp at hs
    · rw [hi] at hs; simp at hs
  · exact (mergeEntryRest_parserEq _ _ _ h).trans (by rw [hc])
  · exact (mergeEntryRest_parserEq _ _ _ h).trans (by rw [hc])

/-- `mergeEntry` selects the entry's parser when none is chosen yet (and the
reference carries no stored error — otherwise it throws). -/
theorem mergeEntry_parser_set (c : ExtractedConfigData) (it : Item)
    (c' : ExtractedConfigData) (r : Reference) (h : mergeEntry c it = .ok c')
    (hc : c.parser = none) (hi : it.parser = some r) :
    c'.parser = some r := by
  unfold mergeEntry at h
  simp only [hc, hi] at h
  rcases he : r.error with _ | e <;> simp only [he] at h
  · exact (mergeEntryRest_parserEq _ _ _ h).trans rfl
  · exact absurd h (by simp)

/-- Case analysis on one iteration of the extraction loop: a successful step
either skipped a non-applying entry or merged an applying one. -/
theorem extractStep_cases (env : Env) (path : String)
    (config : ExtractedConfigData) (it : Item) (c' : ExtractedConfigData)
    (h : extractStep env path config it = .ok c') :
    (itemApplies env path it = some false ∧ c' = config) ∨
    (itemApplies env path it = some true ∧ mergeEntry config it = .ok c') := by
  unfold extractStep at h
  rcases ha : itemApplies env path it with _ | b <;> simp only [ha] at h
  · exact absurd h (by simp)
  · cases b
    · exact Or.inl ⟨rfl, (Except.ok.inj h).symm⟩
    · exact Or.inr ⟨rfl, h⟩

/-- `resolveProcessor` never touches the `parser` member. -/
theorem resolveProcessor_parser_eq (env : Env) (c c' : ExtractedConfigData)
    (h : resolveProcessor env c = .ok c') : c'.parser = c.parser := by
  unfold resolveProcessor at h
  split at h
  · split at h
    · split at h
      · exact absurd h (by simp)
      · dsimp only at h
        split at h
        · exact absurd h (by simp)
        · split at h
          · exact absurd h (by simp)
          · split at h
            · cases h; rfl
            · exact absurd h (by simp)
    · exact absurd h (by simp)
    · cases h; rfl
  · cases h; rfl

/-- An extraction walk started with a chosen parser keeps it. -/
theorem extractLoop_parser_keep (env : Env) (path : String) :
    ∀ (items : List Item) (config c' : ExtractedConfigData),
      items.foldlM (extractStep env path) config = .ok c' →
      config.parser.isSome = true → c'.parser = config.parser
  | [], config, c', h, _ => by
    simp only [List.foldlM] at h
    cases h; rfl
  | it :: rest, config, c', h, hp => by
    simp only [List.foldlM] at h
    obtain ⟨b, hb, hrest⟩ := except_bind_ok _ _ _ h
    have hstep : b.parser = config.parser := by
      rcases extractStep_cases env path config it b hb with ⟨_, rfl⟩ | ⟨_, hm⟩
      · rfl
      · exact mergeEntry_parser_keep _ _ _ hm (Or.inl hp)
    have : b.parser.isSome = true := by rw [hstep]; exact hp
    rw [← hstep]
    exact extractLoop_parser_keep env path rest b c' hrest this

/-- An extraction walk over items none of which contributes a parser (each
either carries none or does not apply) leaves the parser unchosen. -/
theorem extractLoop_parser_none (env : Env) (path : String) :
    ∀ (items : List Item) (config c' : ExtractedConfigData),
      items.foldlM (extractStep env path) config = .ok c' →
      (∀ it ∈ items, it.parser = none ∨ itemApplies env path it = some false) →
      config.parser = none → c'.parser = none
  | [], config, c', h, _, hp => by
    simp only [List.foldlM] at h
    cases h; exact hp
  | it :: rest, config, c', h, hitems, hp => by
    simp only [List.foldlM] at h
    obtain ⟨b, hb, hrest⟩ := except_bind_ok _ _ _ h
    have hstep : b.parser = none := by
      rcases extractStep_cases env path config it b hb with ⟨_, rfl⟩ | ⟨happ, hm⟩
      · exact hp
      · rcases hitems it (by simp) with hnone | hskip
        · exact (mergeEntry_parser_keep _ _ _ hm (Or.inr hnone)).trans hp
        · rw [happ] at hskip; exact absurd hskip (by simp)
    exact extractLoop_parser_none env path rest b c' hrest
      (fun x hx => hitems x (by simp [hx])) hstep

/-- C1, amended: walking from the last index down to the first and keeping
the first non-null parser means the *last* applicable parser-carrying
element wins: if `e1` before `e2` both carry non-null parsers and both apply
to the path, and additionally no element after `e2` both applies and
carries a parser, then a successful extraction's parser is `e2`'s. -/
theorem extractConfig_parser_last_wins (env : Env) (path : String)
    (pre post : List Item) (e1 e2 : Item) (r1 r2 : Reference)
    (c : ExtractedConfigData)
    (h1 : e1 ∈ pre) (h1a : itemApplies env path e1 = some true)
    (h1p : e1.parser = some r1)
    (h2a : itemApplies env path e2 = some true) (h2p : e2.parser = some r2)
    (hpost : ∀ it ∈ post,
      it.parser = none ∨ itemApplies env path it = some false)
    (hex : extractConfig env (pre ++ e2 :: post) path = .ok c) :
    c.parser = some r2 := by
  unfold extractConfig at hex
  obtain ⟨c0, hc0, hres⟩ := except_bind_ok _ _ _ hex
  rw [List.reverse_append, List.reverse_cons, List.append_assoc,
    List.foldlM_append] at hc0
  obtain ⟨cA, hcA, hcons⟩ := except_bind_ok _ _ _ hc0
  rw [List.foldlM_append] at hcons
  obtain ⟨cB, hcB, hpre⟩ := except_bind_ok _ _ _ hcons
  have hA : cA.parser = none := by
    refine extractLoop_parser_none env path post.reverse _ cA hcA ?_ rfl
    intro x hx
    exact hpost x (List.mem_reverse.mp hx)
  have hB : cB.parser = some r2 := by
    simp only [List.foldlM, bind_pure] at hcB
    rcases extractStep_cases env path cA e2 cB hcB with ⟨hf, _⟩ | ⟨_, hm⟩
    · rw [h2a] at hf; exact absurd hf (by simp)
    · exact mergeEntry_parser_set cA e2 cB r2 hm hA h2p
  have h0 : c0.parser = some r2 := by
    rw [extractLoop_parser_keep env path pre.reverse cB c0 hpre
      (by rw [hB]; rfl)]
    exact hB
  rw [resolveProcessor_parser_eq env c0 c hres]
  exact h0

/-- C1 witness for the amended theorem: the two-entry array
`[elemP 1, elemP 2]` (nothing after `e2 = elemP 2`), extracted at `"a.js"`,
chooses `refP 2`. -/
theorem extractConfig_parser_last_wins_witness :
    elemP 1 ∈ [elemP 1] ∧
    itemApplies envNull "a.js" (elemP 2) = some true ∧
    (elemP 2).parser = some (refP 2) ∧
    extractConfig envNull ([elemP 1] ++ elemP 2 :: []) "a.js" =
      .ok { parser := some (refP 2) } ∧
    ({ parser := some (refP 2) } : ExtractedConfigData).parser =
      some (refP 2) :=
  ⟨List.mem_singleton.mpr rfl, rfl, rfl, rfl,
    extractConfig_parser_last_wins envNull "a.js" [elemP 1] [] (elemP 1)
      (elemP 2) (refP 1) (refP 2) { parser := some (refP 2) }
      (List.mem_singleton.mpr rfl) rfl rfl rfl rfl (by simp) rfl⟩

/-! ## C3 — combining predicates onto derived elements

`combineMatchFile` is meant to conjoin the parent predicate `m` with an
element's own predicate, but it passes `normalizedConfig.matchFile` — a
property of the generator object, always `undefined` — as the left operand
of `defineAnd`, so the element's own predicate is discarded and the combined
closure calls `undefined` as a function when evaluated. -/

/-- C3: flattening the schema-valid config
`{ overrides: [{ files: "*.ts", overrides: [{ files: "*.spec.ts" }] }] }`
gives the inner override's element the predicate
`defineAnd(undefined, m_ts)` — the element's own `*.spec.ts` predicate is
discarded, not conjoined — and evaluating that predicate (which every
extraction touching the element does) throws a `TypeError` instead of
returning `m(path) && own(path)`. -/
theorem combineMatchFile_broken_conjunction :
    normalizeConfigDataW envNull (part001Impls envNull) 6 cfgC3 "" ".cfg" =
      .ok [.element { name := ".cfg" },
           .element { name := ".cfg#overrides[0]",
                      matchFile := some (.matcher (some ["*.ts"]) none) },
           .element { name := ".cfg#overrides[0]#overrides[0]",
                      matchFile :=
                        some (.and none (.matcher (some ["*.ts"]) none)) }] ∧
    (∀ (mm : String → String → Bool) (p : String),
      evalMatchFn mm (.and none (.matcher (some ["*.ts"]) none)) p = none) ∧
    extractConfig envNull
        [.element { name := ".cfg#overrides[0]#overrides[0]",
                    matchFile :=
                      some (.and none (.matcher (some ["*.ts"]) none)) }]
        "x.spec.ts" =
      .error (.typeError "entry.matchFile") :=
  ⟨rfl, fun _ _ => rfl, rfl⟩

/-! ## C5 — lazily stored plugin errors -/

/-- C5: a plugin whose module resolution fails is *returned* as a reference
storing the error (nothing is thrown while loading); extracting a config
whose only `q`-carrying element does not apply to the target path succeeds,
and extracting one whose applying element carries `q` fails with the stored
plugin-missing error. -/
theorem storedPluginError_lazy :
    (∀ (env : Env) (name importerPath : String),
      anyS name Char.isWhitespace = false →
      env.resolve (normalizePackageName name "eslint-plugin") importerPath =
        none →
      loadPlugin env name importerPath =
        { error :=
            some (.pluginMissing (normalizePackageName name "eslint-plugin")),
          id := getShorthandName (normalizePackageName name "eslint-plugin")
            "eslint-plugin",
          importerPath := importerPath }) ∧
    (normalizeConfigDataW envC5 (part001Impls envC5) 6 cfgC5A
        "/x/.eslintrc.json" ".eslintrc.json" >>= fun items =>
      extractConfig envC5 items "a.js") = .ok {} ∧
    (normalizeConfigDataW envC5 (part001Impls envC5) 6 cfgC5B
        "/x/.eslintrc.json" ".eslintrc.json" >>= fun items =>
      extractConfig envC5 items "a.js") =
      .error (.pluginMissing "eslint-plugin-q") := by
  refine ⟨?_, rfl, rfl⟩
  intro env name importerPath hws hres
  simp [loadPlugin, hws, hres]

/-- C5 witness: the plugin `q` under `envC5`. -/
theorem storedPluginError_lazy_witness :
    anyS "q" Char.isWhitespace = false ∧
    envC5.resolve (normalizePackageName "q" "eslint-plugin")
      "/x/.eslintrc.json" = none ∧
    loadPlugin envC5 "q" "/x/.eslintrc.json" =
      { error :=
          some (.pluginMissing (normalizePackageName "q" "eslint-plugin")),
        id := getShorthandName (normalizePackageName "q" "eslint-plugin")
          "eslint-plugin",
        importerPath := "/x/.eslintrc.json" } :=
  ⟨by decide, rfl,
    storedPluginError_lazy.1 envC5 "q" "/x/.eslintrc.json" (by decide) rfl⟩

/-! ## C2 — the ancestor walk and the `root` sentinel -/

/-- One unfolding of the ancestor loop when the first directory processed
already holds a root config: the walk stops there. -/
theorem loadInAncestorsLoop_root (env : Env) (impls : NormImpls) (fuel : Nat)
    (revPath : List String) (parent items : List Item)
    (hload : loadConfigDataOnDirectoryW env impls fuel revPath.reverse =
      .ok (some items))
    (hroot : isRoot items = true) :
    loadInAncestorsLoop env impls fuel revPath parent =
      .ok (items ++ parent) := by
  rw [loadInAncestorsLoop, hload]
  simp [hroot]

/-- C2: the ancestor walk starts at the parent of the given path and stops as
soon as a directory's config array has `isRoot()`, prepending only what it
collected so far; consequently `/a/b/c.js` under the cascade
`/a/.eslintrc.json = { rules: { r1: "error" } }`,
`/a/b/.eslintrc.json = { root: true, rules: { r2: "warn" } }` resolves to
`rules == { r2: ["warn"] }` with no `r1` entry. -/
theorem loadInAncestors_root_stops :
    (∀ (env : Env) (impls : NormImpls) (fuel : Nat)
       (directoryPath homedir : List String) (parent items : List Item)
       (usePersonalEslintrc : Bool),
      loadConfigDataOnDirectoryW env impls fuel directoryPath.dropLast =
        .ok (some items) →
      isRoot items = true →
      loadInAncestors env impls fuel directoryPath parent
        usePersonalEslintrc homedir = .ok (items ++ parent)) ∧
    loadInAncestors envC2 (factoryImpls envC2 []) 10 ["a", "b", "c.js"] []
      true ["home"] = .ok [itemC2B] ∧
    extractConfig envC2 [itemC2B] "c.js" =
      .ok { rules := [("r2", [.prim (.str "warn")])] } ∧
    alistGet [("r2", [JsVal.prim (.str "warn")])] "r1" = none := by
  refine ⟨?_, rfl, rfl, rfl⟩
  intro env impls fuel directoryPath homedir parent items usePersonal hload
    hroot
  unfold loadInAncestors
  rw [loadInAncestorsLoop_root env impls fuel directoryPath.dropLast.reverse
    parent items (by rwa [List.reverse_reverse]) hroot]
  have hne : items ≠ [] := ne_nil_of_isRoot hroot
  simp [Bind.bind, Except.bind, List.append_eq_nil, hne, pure, Except.pure]

/-- C2 witness: the general root-stop conjunct applied to the concrete
cascade (the directory `/a/b` holds the root config). -/
theorem loadInAncestors_root_stops_witness :
    loadConfigDataOnDirectoryW envC2 (factoryImpls envC2 []) 10
      (["a", "b", "c.js"].dropLast) = .ok (some [itemC2B]) ∧
    isRoot [itemC2B] = true ∧
    loadInAncestors envC2 (factoryImpls envC2 []) 10 ["a", "b", "c.js"] []
      true ["home"] = .ok ([itemC2B] ++ []) :=
  ⟨rfl, rfl,
    loadInAncestors_root_stops.1 envC2 (factoryImpls envC2 []) 10
      ["a", "b", "c.js"] ["home"] [] [itemC2B] true rfl rfl⟩

/-! ## C4 — plugin conflict detection

`mergePlugins` never compares the two definitions: the duplicated-plugin
error fires exactly when the importer paths differ and neither reference's
`importerPath` equals its own `filePath`. -/

/-- C4, counterexample: two elements contribute plugin `p` with references
whose `definition` members are the *same* object (`7`), yet extraction over
the two-element array fails with the duplicated-plugin error (the claim says
the already-kept reference should be retained with no error). -/
theorem mergePlugins_same_definition_counterexample :
    refA4.definition = refB4.definition ∧
    extractConfig envNull
        [.element { plugins := some [("p", refA4)] },
         .element { plugins := some [("p", refB4)] }] "x" =
      .error (.duplicatedPlugin "p" "/ib" "/ia") :=
  ⟨rfl, rfl⟩

/-- C4, amended: when two references meet under one id during extraction, the
duplicated-plugin conflict is raised exactly when their importer paths differ
and neither reference's `importerPath` equals its own `filePath`; otherwise
the already-kept reference is retained and no error is raised.  The
definitions play no role. -/
theorem mergePlugins_conflict_iff (target : List (String × Reference))
    (k : String) (tv sv : Reference) (hget : alistGet target k = some tv) :
    (mergePlugins target (some [(k, sv)]) =
        .error (.duplicatedPlugin k tv.importerPath sv.importerPath) ↔
      (tv.importerPath ≠ sv.importerPath ∧
       some tv.importerPath ≠ tv.filePath ∧
       some sv.importerPath ≠ sv.filePath)) ∧
    (¬(tv.importerPath ≠ sv.importerPath ∧
       some tv.importerPath ≠ tv.filePath ∧
       some sv.importerPath ≠ sv.filePath) →
      mergePlugins target (some [(k, sv)]) = .ok target) := by
  constructor
  · simp only [mergePlugins, mergePluginsList, hget]
    split
    · rename_i hcond
      exact ⟨fun _ => hcond, fun _ => rfl⟩
    · rename_i hcond
      constructor
      · intro h
        simp [mergePluginsList] at h
      · intro h
        exact absurd h hcond
  · intro h
    simp only [mergePlugins, mergePluginsList, hget]
    split
    · rename_i hcond
      exact absurd hcond h
    · simp [mergePluginsList]

/-- C4 witness: instantiating `mergePlugins_conflict_iff` with the target
`[("p", refA4)]` and source `refB4` detects the conflict of the
counterexample pair, and with `refA4` on both sides (same importer) retains
the target. -/
theorem mergePlugins_conflict_iff_witness :
    alistGet [("p", refA4)] "p" = some refA4 ∧
    (mergePlugins [("p", refA4)] (some [("p", refB4)]) =
        .error (.duplicatedPlugin "p" refA4.importerPath refB4.importerPath) ↔
      (refA4.importerPath ≠ refB4.importerPath ∧
       some refA4.importerPath ≠ refA4.filePath ∧
       some refB4.importerPath ≠ refB4.filePath)) :=
  ⟨rfl, (mergePlugins_conflict_iff [("p", refA4)] "p" refA4 refB4 rfl).1⟩

/-! ## C6 — resolving the `plugins` list during normalization -/

/-- C6: the `config-array-load` copy builds the id-to-reference mapping with
one entry per listed plugin and attaches it to the body element; the
`ConfigArrayFactory._loadPlugins` copy instead calls itself on each name
string, evaluating `"foo".reduce`, so normalizing the same config through the
factory throws a `TypeError` for every non-empty `plugins` sequence. -/
theorem loadPlugins_mapping_and_factory_typeError :
    loadPlugins envC6 ["foo", "bar"] "/prj/.eslintrc.json" =
      [("foo", refFoo), ("bar", refBar)] ∧
    normalizeConfigDataW envC6 (part001Impls envC6) 5 cfgC6
        "/prj/.eslintrc.json" ".eslintrc.json" =
      .ok [.element { name := ".eslintrc.json",
                      filePath := "/prj/.eslintrc.json",
                      plugins := some [("foo", refFoo), ("bar", refBar)] }] ∧
    ConfigArrayFactory.loadPluginsM ["foo", "bar"] "/prj/.eslintrc.json" =
      .error (.typeError "names.reduce") ∧
    normalizeConfigDataW envC6 (factoryImpls envC6 []) 5 cfgC6
        "/prj/.eslintrc.json" ".eslintrc.json" =
      .error (.typeError "names.reduce") :=
  ⟨rfl, rfl, rfl, rfl⟩

/-! ## C7 — the glob walk plan -/

/-- C7: in `_iterateFilesWithGlob` (the first copy) a glob whose parent is
`.` and whose remainder has no `**` and no separators walks non-recursively,
and `src/**/*.ts` under `/w` starts at `/w/src`, recursive, with the
selector built from `src/**/*.ts`; but the second copy
(`iterateFilesWithGlob`) computes `recursive = globParent === "." || ...`,
so the same separator-free pattern `*.js` walks *recursively* there,
contradicting the claim. -/
theorem glob_walk_plan (cwd pattern : String)
    (hparent : getGlobParent pattern = ".")
    (hspan : hasGlobSpan (dropS pattern 2) = false) :
    (iterateFilesWithGlobPlan cwd pattern).recursive = false ∧
    iterateFilesWithGlobPlan "/w" "src/**/*.ts" =
      { directoryPath := "/w/src", selectorPattern := "src/**/*.ts",
        recursive := true } ∧
    (iterateFilesWithGlobPlan "/w" "*.js").recursive = false ∧
    (iterateFilesWithGlobPlanV2 "/w" "*.js").recursive = true := by
  refine ⟨?_, by decide, by decide, by decide⟩
  simp [iterateFilesWithGlobPlan, hparent, hspan]

/-- C7 witness: the pattern `*.js` (glob parent `.`, remainder `js`). -/
theorem glob_walk_plan_witness :
    getGlobParent "*.js" = "." ∧ hasGlobSpan (dropS "*.js" 2) = false ∧
    (iterateFilesWithGlobPlan "/w" "*.js").recursive = false :=
  ⟨by decide, by decide, (glob_walk_plan "/w" "*.js" (by decide) (by decide)).1⟩

/-! ## C9 — `root` versus `matchFile` -/

/-- C9, counterexample: loading the schema-valid file `/main.json`
(`{ overrides: [{ files: "*.ts", extends: "/r.js" }] }`, where
`/r.js = { root: true }`) produces a flattened array whose second element
carries `root = true` *and* a `matchFile` predicate: the constructor
suppressed nothing because `combineMatchFile` assigned the predicate only
after construction. -/
theorem root_with_matchFile_counterexample :
    validConfigData 10 true cfgC9main = true ∧
    validConfigData 10 true cfgC9root = true ∧
    loadConfigDataW envC9 (factoryImpls envC9 []) 10 "/main.json" none =
      .ok [.element { name := "main.json", filePath := "/main.json" },
           .element elemC9,
           .element { name := "main.json#overrides[0]",
                      filePath := "/main.json",
                      matchFile := some (.matcher (some ["*.ts"]) none) }] ∧
    elemC9.root = some true ∧
    elemC9.matchFile.isSome = true :=
  ⟨rfl, rfl, rfl, rfl, rfl⟩

/-- C9, amended: the `ConfigArrayElement` constructor itself does suppress
`root` under a predicate — an element *constructed* with a `matchFile` never
has `root = true`; the invariant fails only for predicates attached to an
already-constructed element by `combineMatchFile`. -/
theorem configArrayElement_root_suppressed (cb : ConfigBase)
    (parserRef : Option Reference)
    (pluginsMap : Option (List (String × Reference)))
    (name filePath : String) (matchFile : Option MatchFn)
    (h : (mkConfigArrayElement cb parserRef pluginsMap name filePath
        matchFile).root = some true) :
    matchFile = none := by
  rcases cb with ⟨f, ef, ex, pa, pr, pl, root, e, g, po, se, ru⟩
  rcases root with _ | b
  · simp [mkConfigArrayElement, jsRootAnd] at h
  · rcases b with _ | _
    · simp [mkConfigArrayElement, jsRootAnd] at h
    · simp only [mkConfigArrayElement, jsRootAnd] at h
      rcases matchFile with _ | m
      · rfl
      · simp at h

/-- C9 witness: a bare `{ root: true }` body with a present predicate has its
root suppressed at construction; with `matchFile := none` the hypothesis of
the amended theorem holds and the conclusion is `none = none`. -/
theorem configArrayElement_root_suppressed_witness :
    (mkConfigArrayElement { root := some true } none none "n" "/f"
        none).root = some true ∧
    (configArrayElement_root_suppressed { root := some true } none none "n"
        "/f" none rfl) = rfl :=
  ⟨rfl, rfl⟩

/-! ## C10 — pool-injected plugins -/

/-- C10, counterexample: the whitespace check precedes the pool lookup, so
the plugin name `"a b"`, although present in the pool under its long name,
yields a stored-error reference with *no* `filePath` — not a loaded
reference whose `filePath` equals the importer path. -/
theorem poolPlugin_whitespace_counterexample :
    alistGet [("eslint-plugin-a b", 9)]
        (normalizePackageName "a b" "eslint-plugin") = some 9 ∧
    ConfigArrayFactory.loadPluginP envNull [("eslint-plugin-a b", 9)]
        "a b" "/imp" =
      { error := some (.whitespaceFound "eslint-plugin-a b"), id := "a b",
        importerPath := "/imp" } :=
  ⟨by decide, by decide⟩

/-- C10, amended: for a whitespace-free plugin name found in the additional
plugin pool (under its long name or its shorthand id), `_loadPlugin` returns
a loaded reference whose `filePath` equals its `importerPath`; and merging
any reference one of whose sides has `importerPath = filePath` never raises
the duplicated-plugin error, because the duplicate check requires both
references to have an `importerPath` different from their own `filePath`. -/
theorem poolPlugin_filePath_and_no_duplicate (env : Env)
    (pool : List (String × Nat)) (name importerPath : String)
    (hws : anyS name Char.isWhitespace = false)
    (hpool : ((alistGet pool (normalizePackageName name "eslint-plugin")).orElse
        (fun _ => alistGet pool
          (getShorthandName (normalizePackageName name "eslint-plugin")
            "eslint-plugin"))).isSome = true) :
    (ConfigArrayFactory.loadPluginP env pool name importerPath).filePath =
        some importerPath ∧
    (ConfigArrayFactory.loadPluginP env pool name importerPath).error =
        none ∧
    ∀ (target : List (String × Reference)) (k : String) (tv sv : Reference),
      alistGet target k = some tv →
      (some tv.importerPath = tv.filePath ∨
       some sv.importerPath = sv.filePath) →
      ∀ (i a b : String),
        mergePlugins target (some [(k, sv)]) ≠
          .error (.duplicatedPlugin i a b) := by
  refine ⟨?_, ?_, ?_⟩
  · simp only [ConfigArrayFactory.loadPluginP, hws, Bool.false_eq_true,
      if_false]
    rcases hp : (alistGet pool (normalizePackageName name "eslint-plugin")).orElse
        (fun _ => alistGet pool
          (getShorthandName (normalizePackageName name "eslint-plugin")
            "eslint-plugin")) with _ | d
    · rw [hp] at hpool; simp at hpool
    · rfl
  · simp only [ConfigArrayFactory.loadPluginP, hws, Bool.false_eq_true,
      if_false]
    rcases hp : (alistGet pool (normalizePackageName name "eslint-plugin")).orElse
        (fun _ => alistGet pool
          (getShorthandName (normalizePackageName name "eslint-plugin")
            "eslint-plugin")) with _ | d
    · rw [hp] at hpool; simp at hpool
    · rfl
  · intro target k tv sv hget hself i a b
    simp only [mergePlugins, mergePluginsList, hget]
    split
    · rename_i hcond
      rcases hself with hs | hs
      · exact absurd hs hcond.2.1
      · exact absurd hs hcond.2.2
    · simp [mergePluginsList]

/-- C10 witness: the pool `[("eslint-plugin-x", 3)]` with plugin name `x`:
the loaded reference's `filePath` is the importer path, and merging the
counterexample target `[("p", refA4)]` with a self-referential source never
produces a duplicated-plugin error. -/
theorem poolPlugin_filePath_and_no_duplicate_witness :
    (anyS "x" Char.isWhitespace = false) ∧
    (ConfigArrayFactory.loadPluginP envNull [("eslint-plugin-x", 3)] "x"
        "/imp").filePath = some "/imp" :=
  ⟨by decide,
    (poolPlugin_filePath_and_no_duplicate envNull [("eslint-plugin-x", 3)]
      "x" "/imp" (by decide) (by decide)).1⟩

/-! ## C8 — idempotence of extraction

Re-extracting an extracted config deep-copies every member into a fresh
accumulator.  The lemmas below show that, on well-formed values, each of the
copies is the identity, and that extraction maintains the well-formedness
invariant `wfX`; the round trip then succeeds whenever the first extraction
left `processor` null.  (When a processor *was* resolved, `resolveProcessor`
calls `.indexOf` on the resolved object and throws — the counterexample.) -/

theorem jsGet_jsSet_ne : ∀ (fs : JsFields) (k key : String) (v : JsVal),
    k ≠ key → jsGet (jsSet fs k v) key = jsGet fs key
  | .nil, k, key, v, h => by simp [jsSet, jsGet, h]
  | .cons k' w rest, k, key, v, h => by
    by_cases hk : k' = k
    · subst hk
      simp [jsSet, jsGet, h]
    · simp only [jsSet, if_neg hk]
      by_cases hk2 : k' = key
      · simp [jsGet, hk2]
      · simp [jsGet, hk2, jsGet_jsSet_ne rest k key v h]

theorem jsAppend_nil : ∀ (fs : JsFields), jsAppend fs .nil = fs
  | .nil => rfl
  | .cons k v rest => by simp [jsAppend, jsAppend_nil rest]

theorem jsAppend_assoc : ∀ (a b c : JsFields),
    jsAppend (jsAppend a b) c = jsAppend a (jsAppend b c)
  | .nil, _, _ => rfl
  | .cons k v rest, b, c => by simp [jsAppend, jsAppend_assoc rest b c]

theorem jsGet_append : ∀ (a b : JsFields) (key : String),
    jsGet (jsAppend a b) key =
      match jsGet a key with
      | some v => some v
      | none => jsGet b key
  | .nil, b, key => by simp [jsAppend, jsGet]
  | .cons k v rest, b, key => by
    by_cases hk : k = key
    · simp [jsAppend, jsGet, hk]
    · simp [jsAppend, jsGet, hk, jsGet_append rest b key]

theorem jsSet_absent : ∀ (fs : JsFields) (k : String) (v : JsVal),
    jsGet fs k = none → jsSet fs k v = jsAppend fs (.cons k v .nil)
  | .nil, _, _, _ => rfl
  | .cons k' w rest, k, v, h => by
    simp only [jsGet] at h
    by_cases hk : k' = k
    · rw [if_pos hk] at h
      cases h
    · rw [if_neg hk] at h
      simp [jsSet, hk, jsAppend, jsSet_absent rest k v h]

theorem keysAbsent_nil_acc : ∀ (sf : JsFields), keysAbsent .nil sf = true
  | .nil => rfl
  | .cons k v rest => by simp [keysAbsent, jsGet, keysAbsent_nil_acc rest]

theorem keysAbsent_extend : ∀ (rest acc : JsFields) (k : String) (v : JsVal),
    keysAbsent acc rest = true → jsGet rest k = none →
    keysAbsent (jsAppend acc (.cons k v .nil)) rest = true
  | .nil, _, _, _, _, _ => rfl
  | .cons k' v' r', acc, k, v, h1, h2 => by
    simp only [keysAbsent, Bool.and_eq_true] at h1
    simp only [jsGet] at h2
    by_cases hk : k' = k
    · rw [if_pos hk] at h2
      cases h2
    · rw [if_neg hk] at h2
      have hacc : jsGet acc k' = none := by simpa using h1.1
      simp only [keysAbsent, Bool.and_eq_true]
      refine ⟨?_, keysAbsent_extend r' acc k v h1.2 h2⟩
      rw [jsGet_append]
      have hk2 : ¬k = k' := fun h => hk h.symm
      simp [hacc, jsGet, hk2]

theorem jsGet_wfB : ∀ (fs : JsFields) (k : String) (v : JsVal),
    JsFields.wfB fs = true → jsGet fs k = some v → v.wfB = true
  | .nil, _, _, _, h => by cases h
  | .cons k' w rest, k, v, hwf, h => by
    simp only [JsFields.wfB, Bool.and_eq_true] at hwf
    simp only [jsGet] at h
    by_cases hk : k' = k
    · rw [if_pos hk] at h
      cases h
      exact hwf.1.1
    · rw [if_neg hk] at h
      exact jsGet_wfB rest k v hwf.1.2 h

theorem jsSet_wfB : ∀ (fs : JsFields) (k : String) (v : JsVal),
    JsFields.wfB fs = true → JsVal.wfB v = true →
    JsFields.wfB (jsSet fs k v) = true
  | .nil, k, v, _, hv => by simp [jsSet, JsFields.wfB, jsGet, hv]
  | .cons k' w rest, k, v, hwf, hv => by
    simp only [JsFields.wfB, Bool.and_eq_true] at hwf
    by_cases hk : k' = k
    · subst hk
      simp [jsSet, JsFields.wfB, hv, hwf.1.2, hwf.2]
    · simp only [jsSet, if_neg hk, JsFields.wfB, Bool.and_eq_true]
      refine ⟨⟨hwf.1.1, jsSet_wfB rest k v hwf.1.2 hv⟩, ?_⟩
      rw [jsGet_jsSet_ne rest k k' v (fun h => hk h.symm)]
      exact hwf.2

mutual
theorem awo_wfB : ∀ (t s : JsVal), t.wfB = true → s.wfB = true →
    (awo t s).wfB = true
  | t, .prim _, ht, _ => by simpa [awo] using ht
  | t, .container _ sf, ht, hs => by
    simp only [awo]
    exact awoFields_wfB t sf ht (by simpa [JsVal.wfB] using hs)

theorem awoFields_wfB : ∀ (t : JsVal) (sf : JsFields), t.wfB = true →
    JsFields.wfB sf = true → (awoFields t sf).wfB = true
  | t, .nil, ht, _ => by simpa [awoFields] using ht
  | t, .cons k sv rest, ht, hsf => by
    simp only [JsFields.wfB, Bool.and_eq_true] at hsf
    simp only [awoFields]
    exact awoFields_wfB (awoKey t k sv) rest
      (awoKey_wfB t k sv ht hsf.1.1) hsf.1.2

theorem awoKey_wfB : ∀ (t : JsVal) (k : String) (sv : JsVal),
    t.wfB = true → sv.wfB = true → (awoKey t k sv).wfB = true
  | .prim _, k, sv, ht, _ => by
    rcases sv with p | ⟨sb, sf'⟩ <;> simpa [awoKey] using ht
  | .container tb tf, k, sv, ht, hsv => by
    have htf : JsFields.wfB tf = true := by simpa [JsVal.wfB] using ht
    rcases hget : jsGet tf k with _ | tv
    · rcases sv with p | ⟨sb, sf'⟩
      · simp only [awoKey, hget, JsVal.wfB]
        exact jsSet_wfB tf k _ htf (by simp [JsVal.wfB])
      · simp only [awoKey, hget, JsVal.wfB]
        have hin : (awoFields (.container sb .nil) sf').wfB = true :=
          awoFields_wfB (.container sb .nil) sf'
            (by simp [JsVal.wfB, JsFields.wfB])
            (by simpa [JsVal.wfB] using hsv)
        exact jsSet_wfB tf k _ htf hin
    · rcases htv : tv.isNonNullObject with _ | _
      · rcases sv with p | ⟨sb, sf'⟩ <;> simpa [awoKey, hget, htv] using ht
      · rcases sv with p | ⟨sb, sf'⟩
        · simpa [awoKey, hget, htv] using ht
        · simp only [awoKey, hget, htv, if_pos, JsVal.wfB]
          have htv' : tv.wfB = true := jsGet_wfB tf k tv htf hget
          have hin : (awoFields tv sf').wfB = true :=
            awoFields_wfB tv sf' htv' (by simpa [JsVal.wfB] using hsv)
          exact jsSet_wfB tf k _ htf hin
end

theorem awoKey_container (tb : Bool) (tf : JsFields) (k : String)
    (sv : JsVal) :
    ∃ tf', awoKey (.container tb tf) k sv = .container tb tf' := by
  rcases hget : jsGet tf k with _ | tv
  · rcases sv with p | ⟨sb, sf'⟩
    · exact ⟨jsSet tf k (.prim p), by simp [awoKey, hget]⟩
    · exact ⟨jsSet tf k (awoFields (.container sb .nil) sf'),
        by simp [awoKey, hget]⟩
  · rcases htv : tv.isNonNullObject with _ | _
    · rcases sv with p | ⟨sb, sf'⟩ <;>
        exact ⟨tf, by simp [awoKey, hget, htv]⟩
    · rcases sv with p | ⟨sb, sf'⟩
      · exact ⟨tf, by simp [awoKey, hget, htv]⟩
      · exact ⟨jsSet tf k (awoFields tv sf'), by simp [awoKey, hget, htv]⟩

theorem awoFields_container : ∀ (sf : JsFields) (tb : Bool) (tf : JsFields),
    ∃ tf', awoFields (.container tb tf) sf = .container tb tf'
  | .nil, tb, tf => ⟨tf, by simp [awoFields]⟩
  | .cons k sv rest, tb, tf => by
    obtain ⟨tf1, h1⟩ := awoKey_container tb tf k sv
    obtain ⟨tf2, h2⟩ := awoFields_container rest tb tf1
    refine ⟨tf2, ?_⟩
    simp only [awoFields]
    rw [h1]
    exact h2

theorem awo_container (tb : Bool) (tf : JsFields) (s : JsVal) :
    ∃ tf', awo (.container tb tf) s = .container tb tf' := by
  rcases s with p | ⟨sb, sf⟩
  · exact ⟨tf, by simp [awo]⟩
  · simpa [awo] using awoFields_container sf tb tf

theorem awoFields_copy : ∀ (sf : JsFields) (b : Bool) (acc : JsFields),
    JsFields.wfB sf = true → keysAbsent acc sf = true →
    awoFields (.container b acc) sf = .container b (jsAppend acc sf)
  | .nil, b, acc, _, _ => by simp [awoFields, jsAppend_nil]
  | .cons k sv rest, b, acc, hwf, habs => by
    have hsv : sv.wfB = true ∧ JsFields.wfB rest = true ∧
        (jsGet rest k).isNone = true := by
      simpa [JsFields.wfB, and_assoc] using hwf
    have hk : (jsGet acc k).isNone = true ∧ keysAbsent acc rest = true := by
      simpa [keysAbsent] using habs
    have hkaccn : jsGet acc k = none := by simpa using hk.1
    have hstep : awoKey (.container b acc) k sv =
        .container b (jsAppend acc (.cons k sv .nil)) := by
      rcases sv with p | ⟨sb, sf'⟩
      · simp [awoKey, hkaccn, jsSet_absent acc k _ hkaccn]
      · have hinner : awoFields (.container sb .nil) sf' =
            .container sb (jsAppend .nil sf') :=
          awoFields_copy sf' sb .nil (by simpa [JsVal.wfB] using hsv.1)
            (keysAbsent_nil_acc sf')
        simp [awoKey, hkaccn, hinner, jsAppend,
          jsSet_absent acc k _ hkaccn]
    have hrec : awoFields (.container b (jsAppend acc (.cons k sv .nil)))
        rest = .container b (jsAppend (jsAppend acc (.cons k sv .nil)) rest) :=
      awoFields_copy rest b _ hsv.2.1
        (keysAbsent_extend rest acc k sv hk.2 (by simpa using hsv.2.2))
    calc awoFields (.container b acc) (.cons k sv rest)
        = awoFields (awoKey (.container b acc) k sv) rest := by
          simp [awoFields]
      _ = .container b (jsAppend (jsAppend acc (.cons k sv .nil)) rest) := by
          rw [hstep]; exact hrec
      _ = .container b (jsAppend acc (.cons k sv rest)) := by
          rw [jsAppend_assoc]; rfl

theorem awo_copy (b : Bool) (sf : JsFields) (h : JsFields.wfB sf = true) :
    awo (.container b .nil) (.container b sf) = .container b sf := by
  simp only [awo]
  simpa [jsAppend] using awoFields_copy sf b .nil h (keysAbsent_nil_acc sf)

theorem alistGet_alistSet_ne {α : Type} :
    ∀ (l : List (String × α)) (k key : String) (v : α), k ≠ key →
      alistGet (alistSet l k v) key = alistGet l key
  | [], k, key, v, h => by simp [alistSet, alistGet, h]
  | (k', w) :: rest, k, key, v, h => by
    by_cases hk : k' = k
    · subst hk
      simp [alistSet, alistGet, h]
    · simp only [alistSet, if_neg hk]
      by_cases hk2 : k' = key
      · simp [alistGet, hk2]
      · simp [alistGet, hk2, alistGet_alistSet_ne rest k key v h]

theorem alistSet_keysNodup {α : Type} :
    ∀ (l : List (String × α)) (k : String) (v : α),
      keysNodup l = true → keysNodup (alistSet l k v) = true
  | [], k, v, _ => by simp [alistSet, keysNodup, alistGet]
  | (k', w) :: rest, k, v, h => by
    simp only [keysNodup, Bool.and_eq_true] at h
    by_cases hk : k' = k
    · subst hk
      simp [alistSet, keysNodup, h.1, h.2]
    · simp only [alistSet, if_neg hk, keysNodup, Bool.and_eq_true]
      refine ⟨?_, alistSet_keysNodup rest k v h.2⟩
      rw [alistGet_alistSet_ne rest k k' v (fun hh => hk hh.symm)]
      exact h.1

theorem alistSet_all {α : Type} (P : String × α → Bool) :
    ∀ (l : List (String × α)) (k : String) (v : α),
      l.all P = true → P (k, v) = true → (alistSet l k v).all P = true
  | [], k, v, _, hp => by simp [alistSet, hp]
  | (k', w) :: rest, k, v, h, hp => by
    simp only [List.all_cons, Bool.and_eq_true] at h
    by_cases hk : k' = k
    · subst hk
      have hset : alistSet ((k', w) :: rest) k' v = (k', v) :: rest := by
        simp [alistSet]
      rw [hset]
      simp only [List.all_cons, Bool.and_eq_true]
      exact ⟨hp, h.2⟩
    · simp only [alistSet, if_neg hk, List.all_cons, Bool.and_eq_true]
      exact ⟨h.1, alistSet_all P rest k v h.2 hp⟩

theorem alistSet_absent {α : Type} :
    ∀ (l : List (String × α)) (k : String) (v : α),
      alistGet l k = none → alistSet l k v = l ++ [(k, v)]
  | [], _, _, _ => rfl
  | (k', w) :: rest, k, v, h => by
    simp only [alistGet] at h
    by_cases hk : k' = k
    · rw [if_pos hk] at h
      cases h
    · rw [if_neg hk] at h
      simp [alistSet, hk, alistSet_absent rest k v h]

theorem alistGet_append {α : Type} :
    ∀ (a b : List (String × α)) (key : String),
      alistGet (a ++ b) key =
        match alistGet a key with
        | some v => some v
        | none => alistGet b key
  | [], b, key => by simp [alistGet]
  | (k, v) :: rest, b, key => by
    by_cases hk : k = key
    · simp [alistGet, hk]
    · simp [alistGet, hk, alistGet_append rest b key]

theorem alistGet_none_ne {α : Type} :
    ∀ (l : List (String × α)) (k : String), alistGet l k = none →
      ∀ kv ∈ l, kv.1 ≠ k
  | [], _, _, kv, hkv => by cases hkv
  | (k', w) :: rest, k, h, kv, hkv => by
    simp only [alistGet] at h
    by_cases hk : k' = k
    · rw [if_pos hk] at h
      cases h
    · rw [if_neg hk] at h
      rcases List.mem_cons.mp hkv with he | hm
      · rw [he]
        exact hk
      · exact alistGet_none_ne rest k h kv hm

theorem mergePluginsList_wf :
    ∀ (src target t' : List (String × Reference)),
      mergePluginsList target src = .ok t' →
      keysNodup target = true →
      target.all (fun kv => kv.2.error.isNone) = true →
      keysNodup t' = true ∧ t'.all (fun kv => kv.2.error.isNone) = true
  | [], target, t', h, h1, h2 => by
    simp only [mergePluginsList] at h
    cases h
    exact ⟨h1, h2⟩
  | (key, sv) :: rest, target, t', h, h1, h2 => by
    simp only [mergePluginsList] at h
    rcases hget : alistGet target key with _ | tv <;> simp only [hget] at h
    · rcases he : sv.error with _ | e <;> simp only [he] at h
      · exact mergePluginsList_wf rest _ t' h
          (alistSet_keysNodup target key sv h1)
          (alistSet_all _ target key sv h2 (by simp [he]))
      · cases h
    · split at h
      · cases h
      · exact mergePluginsList_wf rest target t' h h1 h2

theorem mergePluginsList_copy :
    ∀ (src acc : List (String × Reference)),
      keysNodup src = true →
      src.all (fun kv => kv.2.error.isNone) = true →
      (∀ kv ∈ src, alistGet acc kv.1 = none) →
      mergePluginsList acc src = .ok (acc ++ src)
  | [], acc, _, _, _ => by simp [mergePluginsList]
  | (key, sv) :: rest, acc, h1, h2, habs => by
    simp only [keysNodup, Bool.and_eq_true] at h1
    simp only [List.all_cons, Bool.and_eq_true] at h2
    have hkey : alistGet acc key = none := habs (key, sv) (by simp)
    have herr : sv.error = none := by simpa using h2.1
    simp only [mergePluginsList, hkey, herr]
    rw [alistSet_absent acc key sv hkey]
    have habs' : ∀ kv ∈ rest, alistGet (acc ++ [(key, sv)]) kv.1 = none := by
      intro kv hkv
      have hne : ¬key = kv.1 := fun hh =>
        alistGet_none_ne rest key (by simpa using h1.1) kv hkv hh.symm
      rw [alistGet_append]
      simp [habs kv (List.mem_cons_of_mem _ hkv), alistGet, hne]
    rw [mergePluginsList_copy rest (acc ++ [(key, sv)]) h1.2 h2.2 habs']
    simp

theorem mergeRulesList_nodup :
    ∀ (src : List (String × RuleVal)) (target : List (String × List JsVal)),
      keysNodup target = true → keysNodup (mergeRulesList target src) = true
  | [], target, h => by simpa [mergeRulesList] using h
  | (key, sd) :: rest, target, h => by
    rcases hget : alistGet target key with _ | td <;>
      rcases sd with v | l <;>
        simp only [mergeRulesList, hget]
    · exact mergeRulesList_nodup rest _ (alistSet_keysNodup target key _ h)
    · exact mergeRulesList_nodup rest _ (alistSet_keysNodup target key _ h)
    · exact mergeRulesList_nodup rest target h
    · split
      · exact mergeRulesList_nodup rest _
          (alistSet_keysNodup target key _ h)
      · exact mergeRulesList_nodup rest target h

theorem mergeRulesList_copy :
    ∀ (src : List (String × List JsVal)) (acc : List (String × List JsVal)),
      keysNodup src = true →
      (∀ kv ∈ src, alistGet acc kv.1 = none) →
      mergeRulesList acc (src.map (fun kv => (kv.1, RuleVal.arr kv.2))) =
        acc ++ src
  | [], acc, _, _ => by simp [mergeRulesList]
  | (key, l) :: rest, acc, h1, habs => by
    simp only [keysNodup, Bool.and_eq_true] at h1
    have hkey : alistGet acc key = none := habs (key, l) (by simp)
    simp only [List.map_cons, mergeRulesList, hkey]
    rw [alistSet_absent acc key l hkey]
    have habs' : ∀ kv ∈ rest, alistGet (acc ++ [(key, l)]) kv.1 = none := by
      intro kv hkv
      have hne : ¬key = kv.1 := fun hh =>
        alistGet_none_ne rest key (by simpa using h1.1) kv hkv hh.symm
      rw [alistGet_append]
      simp [habs kv (List.mem_cons_of_mem _ hkv), alistGet, hne]
    rw [mergeRulesList_copy rest (acc ++ [(key, l)]) h1.2 habs']
    simp

theorem wfX_spec (c : ExtractedConfigData) (hc : c.wfX = true) :
    (∃ sf, c.env = .container false sf ∧ JsFields.wfB sf = true) ∧
    (∃ sf, c.globals = .container false sf ∧ JsFields.wfB sf = true) ∧
    (∃ sf, c.parserOptions = .container false sf ∧ JsFields.wfB sf = true) ∧
    (∃ sf, c.settings = .container false sf ∧ JsFields.wfB sf = true) ∧
    keysNodup c.plugins = true ∧
    c.plugins.all (fun kv => kv.2.error.isNone) = true ∧
    keysNodup c.rules = true ∧
    (∀ r, c.parser = some r → r.error = none) := by
  unfold ExtractedConfigData.wfX at hc
  simp only [Bool.and_eq_true, and_assoc] at hc
  obtain ⟨h1, h2, h3, h4, h5, h6, h7, h8, h9, h10, h11, h12⟩ := hc
  refine ⟨?_, ?_, ?_, ?_, h9, h10, h11, ?_⟩
  · rcases he : c.env with p | ⟨b, sf⟩
    · rw [he] at h1; simp [isObjF] at h1
    · rw [he] at h1 h5
      cases b
      · exact ⟨sf, rfl, by simpa [JsVal.wfB] using h5⟩
      · simp [isObjF] at h1
  · rcases he : c.globals with p | ⟨b, sf⟩
    · rw [he] at h2; simp [isObjF] at h2
    · rw [he] at h2 h6
      cases b
      · exact ⟨sf, rfl, by simpa [JsVal.wfB] using h6⟩
      · simp [isObjF] at h2
  · rcases he : c.parserOptions with p | ⟨b, sf⟩
    · rw [he] at h3; simp [isObjF] at h3
    · rw [he] at h3 h7
      cases b
      · exact ⟨sf, rfl, by simpa [JsVal.wfB] using h7⟩
      · simp [isObjF] at h3
  · rcases he : c.settings with p | ⟨b, sf⟩
    · rw [he] at h4; simp [isObjF] at h4
    · rw [he] at h4 h8
      cases b
      · exact ⟨sf, rfl, by simpa [JsVal.wfB] using h8⟩
      · simp [isObjF] at h4
  · intro r hr
    rw [hr] at h12
    simpa using h12

theorem mergeJs_isObjF (t : JsVal) (s : Option JsVal)
    (h : isObjF t = true) : isObjF (mergeJs t s) = true := by
  rcases s with _ | v
  · simpa [mergeJs] using h
  · rcases t with p | ⟨tb, tf⟩
    · simp [isObjF] at h
    · cases tb
      · obtain ⟨tf', htf'⟩ := awo_container false tf v
        simp [mergeJs, htf', isObjF]
      · simp [isObjF] at h

theorem mergeJs_wfB (t : JsVal) (s : Option JsVal) (ht : t.wfB = true)
    (hs : optWf s = true) : (mergeJs t s).wfB = true := by
  rcases s with _ | v
  · simpa [mergeJs] using ht
  · exact awo_wfB t v ht (by simpa [optWf] using hs)

theorem mergePlugins_wf (tp : List (String × Reference))
    (sp : Option (List (String × Reference)))
    (plugins : List (String × Reference))
    (h : mergePlugins tp sp = .ok plugins)
    (h1 : keysNodup tp = true)
    (h2 : tp.all (fun kv => kv.2.error.isNone) = true) :
    keysNodup plugins = true ∧
      plugins.all (fun kv => kv.2.error.isNone) = true := by
  rcases sp with _ | src
  · simp only [mergePlugins] at h
    cases h
    exact ⟨h1, h2⟩
  · exact mergePluginsList_wf src tp plugins h h1 h2

theorem mergeRules_nodup (tp : List (String × List JsVal))
    (sp : Option (List (String × RuleVal))) (h1 : keysNodup tp = true) :
    keysNodup (mergeRules tp sp) = true := by
  rcases sp with _ | src
  · simpa [mergeRules] using h1
  · exact mergeRulesList_nodup src tp h1

theorem mergeEntryRest_ok (c : ExtractedConfigData) (it : Item)
    (c' : ExtractedConfigData) (h : mergeEntryRest c it = .ok c') :
    ∃ plugins, mergePlugins c.plugins it.plugins = .ok plugins ∧
      c' = { env := mergeJs c.env it.env,
             globals := mergeJs c.globals it.globals,
             parser := c.parser,
             parserOptions := mergeJs c.parserOptions it.parserOptions,
             plugins := plugins,
             processor :=
               if !procTruthy c.processor && procTruthy it.processor then
                 it.processor
               else c.processor,
             rules := mergeRules c.rules it.rules,
             settings := mergeJs c.settings it.settings } := by
  by_cases hcond : (!procTruthy c.processor && procTruthy it.processor) = true
  · simp only [mergeEntryRest, if_pos hcond] at h
    split at h
    next e hres => cases h
    next plugins hres =>
      cases h
      refine ⟨plugins, hres, ?_⟩
      simp only [Bool.and_eq_true, Bool.not_eq_true'] at hcond
      simp [if_pos hcond]
  · simp only [mergeEntryRest, if_neg hcond] at h
    split at h
    next e hres => cases h
    next plugins hres =>
      cases h
      refine ⟨plugins, hres, ?_⟩
      simp only [Bool.and_eq_true, Bool.not_eq_true'] at hcond
      simp [if_neg hcond]

theorem mergeEntryRest_wfX (c : ExtractedConfigData) (it : Item)
    (c' : ExtractedConfigData) (h : mergeEntryRest c it = .ok c')
    (hc : c.wfX = true) (hit : it.wfJs = true) : c'.wfX = true := by
  obtain ⟨plugins, hmp, rfl⟩ := mergeEntryRest_ok c it c' h
  obtain ⟨⟨e1, he1, hw1⟩, ⟨e2, he2, hw2⟩, ⟨e3, he3, hw3⟩, ⟨e4, he4, hw4⟩,
    h9, h10, h11, h12⟩ := wfX_spec c hc
  have hits : optWf it.env = true ∧ optWf it.globals = true ∧
      optWf it.parserOptions = true ∧ optWf it.settings = true := by
    simpa [Item.wfJs, Bool.and_eq_true, and_assoc] using hit
  have hobj : ∀ (v : JsVal) (sf : JsFields), v = .container false sf →
      isObjF v = true := by
    intro v sf hv
    rw [hv]
    rfl
  obtain ⟨hp1, hp2⟩ := mergePlugins_wf c.plugins it.plugins plugins hmp h9 h10
  unfold ExtractedConfigData.wfX
  simp only [Bool.and_eq_true, and_assoc]
  refine ⟨?_, ?_, ?_, ?_, ?_, ?_, ?_, ?_, hp1, hp2, ?_, ?_⟩
  · exact mergeJs_isObjF c.env it.env (hobj _ _ he1)
  · exact mergeJs_isObjF c.globals it.globals (hobj _ _ he2)
  · exact mergeJs_isObjF c.parserOptions it.parserOptions (hobj _ _ he3)
  · exact mergeJs_isObjF c.settings it.settings (hobj _ _ he4)
  · exact mergeJs_wfB c.env it.env (by rw [he1]; simpa [JsVal.wfB] using hw1)
      hits.1
  · exact mergeJs_wfB c.globals it.globals
      (by rw [he2]; simpa [JsVal.wfB] using hw2) hits.2.1
  · exact mergeJs_wfB c.parserOptions it.parserOptions
      (by rw [he3]; simpa [JsVal.wfB] using hw3) hits.2.2.1
  · exact mergeJs_wfB c.settings it.settings
      (by rw [he4]; simpa [JsVal.wfB] using hw4) hits.2.2.2
  · exact mergeRules_nodup c.rules it.rules h11
  · rcases hp : c.parser with _ | r
    · simp
    · simpa using h12 r hp

theorem wfX_parser_set (c : ExtractedConfigData) (r : Reference)
    (hc : c.wfX = true) (he : r.error = none) :
    ({ c with parser := some r } : ExtractedConfigData).wfX = true := by
  unfold ExtractedConfigData.wfX at hc ⊢
  simp only [Bool.and_eq_true, and_assoc] at hc ⊢
  obtain ⟨h1, h2, h3, h4, h5, h6, h7, h8, h9, h10, h11, _⟩ := hc
  exact ⟨h1, h2, h3, h4, h5, h6, h7, h8, h9, h10, h11, by simp [he]⟩

theorem mergeEntry_wfX (c : ExtractedConfigData) (it : Item)
    (c' : ExtractedConfigData) (h : mergeEntry c it = .ok c')
    (hc : c.wfX = true) (hit : it.wfJs = true) : c'.wfX = true := by
  unfold mergeEntry at h
  rcases hp : c.parser with _ | p <;> rcases hq : it.parser with _ | r <;>
    simp only [hp, hq] at h
  · exact mergeEntryRest_wfX _ _ _ h hc hit
  · rcases he : r.error with _ | e <;> simp only [he] at h
    · exact mergeEntryRest_wfX _ _ _ h (wfX_parser_set c r hc he) hit
    · cases h
  · exact mergeEntryRest_wfX _ _ _ h hc hit
  · exact mergeEntryRest_wfX _ _ _ h hc hit

theorem extractLoop_wfX (env : Env) (path : String) :
    ∀ (items : List Item) (config c' : ExtractedConfigData),
      items.foldlM (extractStep env path) config = .ok c' →
      config.wfX = true → (∀ it ∈ items, it.wfJs = true) → c'.wfX = true
  | [], config, c', h, hc, _ => by
    simp only [List.foldlM] at h
    cases h
    exact hc
  | it :: rest, config, c', h, hc, hits => by
    simp only [List.foldlM] at h
    obtain ⟨b, hb, hrest⟩ := except_bind_ok _ _ _ h
    have hbwf : b.wfX = true := by
      rcases extractStep_cases env path config it b hb with ⟨_, rfl⟩ | ⟨_, hm⟩
      · exact hc
      · exact mergeEntry_wfX config it b hm hc (hits it (by simp))
    exact extractLoop_wfX env path rest b c' hrest hbwf
      (fun x hx => hits x (by simp [hx]))

theorem resolveProcessor_shape (env : Env) (c0 c : ExtractedConfigData)
    (h : resolveProcessor env c0 = .ok c) :
    ∃ pv, c = { c0 with processor := pv } := by
  unfold resolveProcessor at h
  split at h
  · split at h
    · split at h
      · cases h
      · dsimp only at h
        split at h
        · cases h
        · split at h
          · cases h
          · split at h
            · cases h
              exact ⟨_, rfl⟩
            · cases h
    · cases h
    · cases h
      exact ⟨c0.processor, rfl⟩
  · cases h
    exact ⟨c0.processor, rfl⟩

theorem extract_wfX (env : Env) (entries : List Item) (path : String)
    (c : ExtractedConfigData)
    (hwf : ∀ it ∈ entries, it.wfJs = true)
    (hex : extractConfig env entries path = .ok c) : c.wfX = true := by
  unfold extractConfig at hex
  obtain ⟨c0, hc0, hres⟩ := except_bind_ok _ _ _ hex
  have h0 : c0.wfX = true := by
    refine extractLoop_wfX env path entries.reverse _ c0 hc0 (by rfl) ?_
    intro x hx
    exact hwf x (List.mem_reverse.mp hx)
  obtain ⟨pv, rfl⟩ := resolveProcessor_shape env c0 c hres
  exact h0

/-- The null-processor case of `resolveProcessor` is the identity. -/
theorem resolveProcessor_of_none (env : Env) (c : ExtractedConfigData)
    (h : c.processor = none) : resolveProcessor env c = .ok c := by
  unfold resolveProcessor
  rw [h]
  rfl

/-- Merging a well-formed extracted config (repackaged as an entry) into a
fresh accumulator that already carries its parser reproduces it exactly. -/
theorem mergeEntryRest_copy (c : ExtractedConfigData) (hc : c.wfX = true)
    (hp : c.processor = none) :
    mergeEntryRest { parser := c.parser } c.toItem = .ok c := by
  obtain ⟨⟨e1, he1, hw1⟩, ⟨e2, he2, hw2⟩, ⟨e3, he3, hw3⟩, ⟨e4, he4, hw4⟩,
    h9, h10, h11, _⟩ := wfX_spec c hc
  have hmp : mergePluginsList [] c.plugins = .ok c.plugins := by
    simpa using mergePluginsList_copy c.plugins [] h9 h10
      (fun kv _ => by simp [alistGet])
  have hmr : mergeRulesList []
      (c.rules.map fun kv => (kv.1, RuleVal.arr kv.2)) = c.rules := by
    simpa using mergeRulesList_copy c.rules [] h11
      (fun kv _ => by simp [alistGet])
  rcases c with ⟨env, globals, parser, parserOptions, plugins, processor,
    rules, settings⟩
  dsimp only at he1 he2 he3 he4 hp hmp hmr
  subst hp he1 he2 he3 he4
  simp [mergeEntryRest, ExtractedConfigData.toItem, Item.env, Item.globals,
    Item.parserOptions, Item.settings, Item.plugins, Item.processor,
    Item.rules, procTruthy, mergeJs, mergePlugins, mergeRules,
    awo_copy false e1 hw1, awo_copy false e2 hw2, awo_copy false e3 hw3,
    awo_copy false e4 hw4, hmp, hmr]

/-- C8: re-extracting a successfully extracted config (as a single-element
array) at the same path reproduces it — provided the extracted `processor`
is null.  The entries' deep-merged members must be real JavaScript object
graphs (`wfJs`), which every normalized config satisfies. -/
theorem extract_idempotent (env : Env) (entries : List Item) (path : String)
    (c : ExtractedConfigData)
    (hwf : ∀ it ∈ entries, it.wfJs = true)
    (hex : extractConfig env entries path = .ok c)
    (hproc : c.processor = none) :
    extractConfig env [c.toItem] path = .ok c := by
  have hcwf : c.wfX = true := extract_wfX env entries path c hwf hex
  have hcopy := mergeEntryRest_copy c hcwf hproc
  have hme : mergeEntry ({} : ExtractedConfigData) c.toItem = .ok c := by
    rcases hcp : c.parser with _ | r
    · rw [hcp] at hcopy
      simpa [mergeEntry, ExtractedConfigData.toItem, Item.parser, hcp]
        using hcopy
    · have herr : r.error = none :=
        (wfX_spec c hcwf).2.2.2.2.2.2.2 r hcp
      rw [hcp] at hcopy
      simpa [mergeEntry, ExtractedConfigData.toItem, Item.parser, hcp, herr]
        using hcopy
  have hstep : extractStep env path ({} : ExtractedConfigData) c.toItem
      = .ok c := by
    simpa [extractStep, itemApplies, ExtractedConfigData.toItem,
      Item.getMatchFile] using hme
  unfold extractConfig
  have hfold : [c.toItem].reverse.foldlM (extractStep env path)
      ({} : ExtractedConfigData) = .ok c := by
    simp [List.foldlM, hstep, Bind.bind, Except.bind, pure, Except.pure]
  rw [hfold]
  simpa [Bind.bind, Except.bind] using resolveProcessor_of_none env c hproc

/-- C8: extraction is not idempotent when a processor was resolved: the
extracted `processor` is the resolved processor object rather than a
string, and re-extraction's `resolveProcessor` calls `.indexOf` on it,
throwing a `TypeError`. -/
theorem extract_idempotent_processor_counterexample :
    extractConfig envC8 itemsC8 "f.js" =
      .ok { plugins := [("p", refPl)],
            processor := some (.resolved 42 "p/x") } ∧
    extractConfig envC8
      [({ plugins := [("p", refPl)],
          processor := some (.resolved 42 "p/x") } :
          ExtractedConfigData).toItem] "f.js" =
      .error (.typeError "config.processor.indexOf") :=
  ⟨rfl, rfl⟩

/-- C8, instantiated: the processor-free round trip on a concrete entry. -/
theorem extract_idempotent_witness :
    (∀ it ∈ [itemW], it.wfJs = true) ∧
    extractConfig envNull [itemW] "a.js" = .ok cW ∧
    cW.processor = none ∧
    extractConfig envNull [cW.toItem] "a.js" = .ok cW :=
  ⟨by decide, rfl, rfl,
   extract_idempotent envNull [itemW] "a.js" cW (by decide) rfl rfl⟩

end ESLint
